import Mathlib

/-!
Autocomplete aggregation and request plumbing of nebula-api.

A verification development for `api/controllers/autocomplete.go`, for the
functions `GetPortString`, `GetEnvLimit` and `GetOptionLimit` of `api/configs`
and for the `CORS` middleware of `api/server.go`.  The handler
`AutocompleteDAG` submits one aggregation pipeline to the document store:

* `$lookup` / `$unwind` / `$lookup` / `$unwind` (both unwinds with
  `preserveNullAndEmptyArrays`) join courses to sections to professors,
* `$project` flattens every joined document to a join row,
* four `$group` stages with a `$push` accumulator build the nested tree,
* a final `$project` drops `_id`.

Every stage is embedded as a function on lists of documents, applied in the
order of the pipeline.  The store fixes two things that the pipeline text does
not: a `$push` accumulator appends in the order in which documents reach the
stage, and a `$group` stage emits its groups in an order of the store's own
choosing (the pipeline has no `$sort`).  The second is kept explicit as the
`Store` parameter of every `$group` stage.

The functions of `api/configs` read the environment and the request and call
`strconv.ParseInt(s, 10, 64)`; the environment and the request are arguments
here, and the parser is embedded with its overflow checks and compared with
the reading of a string as a base-10 signed 64-bit integer (`ParseInt_spec`).
-/

namespace Autocomplete

/-! ## Documents -/

/-- A field of a document as the pipeline sees it: absent, an explicit null,
or a string. -/
inductive Value where
  | missing : Value
  | null : Value
  | str (s : String) : Value
deriving DecidableEq, Repr

/-- Identifier stored in `_id` and in the reference arrays `sections` and
`professors` (an ObjectID, never null). -/
abbrev ObjectID := Nat

/-- A document of the `professors` collection, restricted to the fields the
pipeline reads. -/
structure ProfessorDoc where
  _id : ObjectID
  first_name : Value
  last_name : Value
deriving DecidableEq, Repr

/-- A document of the `sections` collection; `academic_session_name` is the
path `academic_session.name`, `professors` the array of professor ids (empty
when the field is absent). -/
structure SectionDoc where
  _id : ObjectID
  academic_session_name : Value
  section_number : Value
  professors : List ObjectID
deriving DecidableEq, Repr

/-- A document of the `courses` collection; `sections` is the array of section
ids (empty when the field is absent). -/
structure CourseDoc where
  _id : ObjectID
  subject_prefix : Value
  course_number : Value
  sections : List ObjectID
deriving DecidableEq, Repr

/-- A course after the first `$lookup`: the matched sections sit in the array
field `section`, here `section_`. -/
structure CourseWithSections where
  course : CourseDoc
  section_ : List SectionDoc
deriving DecidableEq, Repr

/-- A document after the first `$unwind`: `section` is one matched section, or
absent when the array was empty. -/
structure CourseSection where
  course : CourseDoc
  section_ : Option SectionDoc
deriving DecidableEq, Repr

/-- A document after the second `$lookup`: the matched professors sit in the
array field `professor`. -/
structure CourseSectionWithProfessors where
  course : CourseDoc
  section_ : Option SectionDoc
  professor : List ProfessorDoc
deriving DecidableEq, Repr

/-- A document after the second `$unwind`. -/
structure Joined where
  course : CourseDoc
  section_ : Option SectionDoc
  professor : Option ProfessorDoc
deriving DecidableEq, Repr

/-- The embedded document `professor` built by the first `$project`. -/
structure ProfessorRef where
  first_name : Value
  last_name : Value
deriving DecidableEq, Repr

/-- A join row: the output of the first `$project`.  `academic_session` holds
the value at `academic_session.name`. -/
structure JoinRow where
  subject_prefix : Value
  course_number : Value
  academic_session : Value
  section_number : Value
  professor : ProfessorRef
deriving DecidableEq, Repr

/-- The `_id` of the first `$group`. -/
structure SectionId where
  subject_prefix : Value
  course_number : Value
  academic_session : Value
  section_number : Value
deriving DecidableEq, Repr

/-- The `_id` of the second `$group`. -/
structure SessionId where
  subject_prefix : Value
  course_number : Value
  academic_session : Value
deriving DecidableEq, Repr

/-- The `_id` of the third `$group`. -/
structure CourseId where
  subject_prefix : Value
  course_number : Value
deriving DecidableEq, Repr

/-- The `_id` of the fourth `$group`. -/
structure SubjectId where
  subject_prefix : Value
deriving DecidableEq, Repr

/-- The document pushed by the second `$group`. -/
structure SectionGroup where
  section_number : Value
  professors : List ProfessorRef
deriving DecidableEq, Repr

/-- The document pushed by the third `$group`. -/
structure SessionGroup where
  academic_session : Value
  sections : List SectionGroup
deriving DecidableEq, Repr

/-- The document pushed by the fourth `$group`. -/
structure CourseGroup where
  course_number : Value
  academic_sessions : List SessionGroup
deriving DecidableEq, Repr

/-- The output of the final `$project`. -/
structure SubjectGroup where
  subject_prefix : Value
  course_numbers : List CourseGroup
deriving DecidableEq, Repr

/-! ## The join stages -/

/-- The stage `$lookup` from `sections` with `localField: sections`,
`foreignField: _id`, `as: section`: the sections whose `_id` is an element of
the local array, in collection order. -/
def lookupSections (sections : List SectionDoc) (c : CourseDoc) : CourseWithSections :=
  { course := c, section_ := sections.filter (fun s => decide (s._id ∈ c.sections)) }

/-- The stage `$unwind` on `$section` with `preserveNullAndEmptyArrays: true`. -/
def unwindSection (d : CourseWithSections) : List CourseSection :=
  match d.section_ with
  | [] => [{ course := d.course, section_ := none }]
  | s :: ss => (s :: ss).map (fun x => { course := d.course, section_ := some x })

/-- The stage `$lookup` from `professors` with `localField: section.professors`,
`foreignField: _id`, `as: professor`.  A document without `section` has no local
value and matches no professor. -/
def lookupProfessors (professors : List ProfessorDoc) (d : CourseSection) :
    CourseSectionWithProfessors :=
  { course := d.course
    section_ := d.section_
    professor :=
      match d.section_ with
      | none => []
      | some s => professors.filter (fun p => decide (p._id ∈ s.professors)) }

/-- The stage `$unwind` on `$professor` with `preserveNullAndEmptyArrays: true`. -/
def unwindProfessor (d : CourseSectionWithProfessors) : List Joined :=
  match d.professor with
  | [] => [{ course := d.course, section_ := d.section_, professor := none }]
  | p :: ps =>
    (p :: ps).map (fun x => { course := d.course, section_ := d.section_, professor := some x })

/-- The first four stages of the pipeline, applied in order to the `courses`
collection. -/
def joinStages (courses : List CourseDoc) (sections : List SectionDoc)
    (professors : List ProfessorDoc) : List Joined :=
  (((courses.map (lookupSections sections)).flatMap unwindSection).map
    (lookupProfessors professors)).flatMap unwindProfessor

/-- Value of a path below an optional embedded document: absent when the
document is absent. -/
def pathValue {α : Type} (d : Option α) (field : α → Value) : Value :=
  match d with
  | none => Value.missing
  | some x => field x

/-- The first `$project` stage. -/
def projectRow (d : Joined) : JoinRow :=
  { subject_prefix := d.course.subject_prefix
    course_number := d.course.course_number
    academic_session := pathValue d.section_ SectionDoc.academic_session_name
    section_number := pathValue d.section_ SectionDoc.section_number
    professor :=
      { first_name := pathValue d.professor ProfessorDoc.first_name
        last_name := pathValue d.professor ProfessorDoc.last_name } }

/-! ## The `$group` stages -/

/-- One step of a `$group` stage with a `$push` accumulator: the value joins
the group of its key, at the end of that group, or opens a new group behind
the groups seen so far. -/
def pushInto {κ β : Type} [DecidableEq κ] (k : κ) (v : β) :
    List (κ × List β) → List (κ × List β)
  | [] => [(k, [v])]
  | g :: rest => if g.1 = k then (g.1, g.2 ++ [v]) :: rest else g :: pushInto k v rest

/-- The accumulation of a `$group` stage with one `$push` accumulator: documents
are taken in the order in which they reach the stage. -/
def groupPush {α κ β : Type} [DecidableEq κ] (key : α → κ) (val : α → β)
    (docs : List α) : List (κ × List β) :=
  docs.foldl (fun acc d => pushInto (key d) (val d) acc) []

/-- The document store as far as `$group` is concerned: the order in which a
`$group` stage emits the groups it has accumulated is chosen by the store; it
emits every group once. -/
structure Store where
  emit : {α : Type} → List α → List α
  emit_perm : ∀ {α : Type} (l : List α), (emit l).Perm l

/-- A store that emits groups in the order in which their keys were first seen. -/
def Store.firstEncounter : Store :=
  { emit := fun l => l, emit_perm := fun l => List.Perm.refl l }

/-- A store that emits groups in the reverse of that order. -/
def Store.lastEncounter : Store :=
  { emit := fun l => l.reverse, emit_perm := fun l => List.reverse_perm l }

/-- A `$group` stage with one `$push` accumulator, run by the store `st`. -/
def groupStage {α κ β : Type} [DecidableEq κ] (st : Store) (key : α → κ) (val : α → β)
    (docs : List α) : List (κ × List β) :=
  st.emit (groupPush key val docs)

/-- The `_id` expression of the first `$group`. -/
def sectionId (r : JoinRow) : SectionId :=
  { subject_prefix := r.subject_prefix
    course_number := r.course_number
    academic_session := r.academic_session
    section_number := r.section_number }

/-- The `_id` expression of the second `$group`. -/
def sessionId (d : SectionId × List ProfessorRef) : SessionId :=
  { subject_prefix := d.fst.subject_prefix
    course_number := d.fst.course_number
    academic_session := d.fst.academic_session }

/-- The `_id` expression of the third `$group`. -/
def courseId (d : SessionId × List SectionGroup) : CourseId :=
  { subject_prefix := d.fst.subject_prefix
    course_number := d.fst.course_number }

/-- The `_id` expression of the fourth `$group`. -/
def subjectId (d : CourseId × List SessionGroup) : SubjectId :=
  { subject_prefix := d.fst.subject_prefix }

/-- The document pushed into `sections` by the second `$group`. -/
def sectionGroup (d : SectionId × List ProfessorRef) : SectionGroup :=
  { section_number := d.fst.section_number, professors := d.snd }

/-- The document pushed into `academic_sessions` by the third `$group`. -/
def sessionGroup (d : SessionId × List SectionGroup) : SessionGroup :=
  { academic_session := d.fst.academic_session, sections := d.snd }

/-- The document pushed into `course_numbers` by the fourth `$group`. -/
def courseGroup (d : CourseId × List SessionGroup) : CourseGroup :=
  { course_number := d.fst.course_number, academic_sessions := d.snd }

/-- First `$group`: by subject, course, session and section; pushes `$professor`. -/
def groupSections (st : Store) (rows : List JoinRow) : List (SectionId × List ProfessorRef) :=
  groupStage st sectionId JoinRow.professor rows

/-- Second `$group`: by subject, course and session; pushes the section. -/
def groupSessions (st : Store) (docs : List (SectionId × List ProfessorRef)) :
    List (SessionId × List SectionGroup) :=
  groupStage st sessionId sectionGroup docs

/-- Third `$group`: by subject and course; pushes the session. -/
def groupCourses (st : Store) (docs : List (SessionId × List SectionGroup)) :
    List (CourseId × List SessionGroup) :=
  groupStage st courseId sessionGroup docs

/-- Fourth `$group`: by subject; pushes the course. -/
def groupSubjects (st : Store) (docs : List (CourseId × List SessionGroup)) :
    List (SubjectId × List CourseGroup) :=
  groupStage st subjectId courseGroup docs

/-- The final `$project`: `_id` is dropped, `subject_prefix` and
`course_numbers` are kept. -/
def projectSubject (d : SubjectId × List CourseGroup) : SubjectGroup :=
  { subject_prefix := d.fst.subject_prefix, course_numbers := d.snd }

/-- The four `$group` stages and the final `$project`, in pipeline order. -/
def groupingStages (st : Store) (rows : List JoinRow) : List SubjectGroup :=
  (groupSubjects st (groupCourses st (groupSessions st (groupSections st rows)))).map
    projectSubject

/-- The whole pipeline run on the three collections. -/
def autocompletePipeline (st : Store) (courses : List CourseDoc) (sections : List SectionDoc)
    (professors : List ProfessorDoc) : List SubjectGroup :=
  groupingStages st ((joinStages courses sections professors).map projectRow)

/-! ## Reading the tree -/

/-- The section leaves below one session, each with its full path. -/
def sessionLeaves (s c : Value) (a : SessionGroup) : List (SectionId × List ProfessorRef) :=
  a.sections.map (fun x =>
    ({ subject_prefix := s, course_number := c, academic_session := a.academic_session,
       section_number := x.section_number }, x.professors))

/-- The section leaves below one course. -/
def courseLeaves (s : Value) (c : CourseGroup) : List (SectionId × List ProfessorRef) :=
  c.academic_sessions.flatMap (sessionLeaves s c.course_number)

/-- The section leaves below one subject. -/
def subjectLeaves (g : SubjectGroup) : List (SectionId × List ProfessorRef) :=
  g.course_numbers.flatMap (courseLeaves g.subject_prefix)

/-- All (subject, course, session, section) leaf paths of a tree, each with
the professors list of its SectionGroup. -/
def leaves (out : List SubjectGroup) : List (SectionId × List ProfessorRef) :=
  out.flatMap subjectLeaves

/-- The scenario rows of the specification. -/
def scenarioRows : List JoinRow :=
  [ { subject_prefix := .str "CS", course_number := .str "1337", academic_session := .str "Fall24",
      section_number := .str "001", professor := ⟨.str "Smith", .str "J"⟩ },
    { subject_prefix := .str "CS", course_number := .str "1337", academic_session := .str "Fall24",
      section_number := .str "001", professor := ⟨.str "Doe", .str "A"⟩ },
    { subject_prefix := .str "CS", course_number := .str "1337", academic_session := .str "Spring25",
      section_number := .str "002", professor := ⟨.missing, .missing⟩ },
    { subject_prefix := .str "MATH", course_number := .str "2417", academic_session := .str "Fall24",
      section_number := .str "901", professor := ⟨.str "Lee", .str "K"⟩ } ]

/-! ## Reading a grouping -/

/-- The distinct elements of a list, each at the place of its first occurrence. -/
def firstSeen {κ : Type} [DecidableEq κ] : List κ → List κ
  | [] => []
  | k :: ks => k :: (firstSeen ks).filter (fun x => decide (x ≠ k))

/-- The members of each group, spread out again as (key, value) pairs. -/
def ungroup {κ β : Type} (gs : List (κ × List β)) : List (κ × β) :=
  gs.flatMap (fun g => g.2.map (fun v => (g.1, v)))

/-- The values pushed so far into the group of key `k` (none when the key has
no group). -/
def groupOf {κ β : Type} [DecidableEq κ] (k : κ) : List (κ × List β) → List β
  | [] => []
  | g :: gs => if g.1 = k then g.2 else groupOf k gs

/-- The key of a row at the session level. -/
def rowSessionId (r : JoinRow) : SessionId :=
  { subject_prefix := r.subject_prefix
    course_number := r.course_number
    academic_session := r.academic_session }

/-- The key of a row at the course level. -/
def rowCourseId (r : JoinRow) : CourseId :=
  { subject_prefix := r.subject_prefix, course_number := r.course_number }

/-- The key of a row at the subject level. -/
def rowSubjectId (r : JoinRow) : SubjectId :=
  { subject_prefix := r.subject_prefix }

/-- Whether a value is one of the two empty placeholders, absent or null. -/
def Value.isPlaceholder : Value → Bool
  | Value.missing => true
  | Value.null => true
  | Value.str _ => false

/-- A store that emits groups starting from the second one, the first group
last. -/
def Store.rotating : Store :=
  { emit := fun l => l.rotate 1, emit_perm := fun l => List.rotate_perm l 1 }

/-- Two rows of one subject with two courses. -/
def twoCourseRows : List JoinRow :=
  [ { subject_prefix := .str "CS", course_number := .str "1337", academic_session := .str "Fall24",
      section_number := .str "001", professor := ⟨.str "Smith", .str "J"⟩ },
    { subject_prefix := .str "CS", course_number := .str "2336", academic_session := .str "Fall24",
      section_number := .str "001", professor := ⟨.str "Doe", .str "A"⟩ } ]

/-- The tree the specification gives for the scenario rows. -/
def scenarioTree : List SubjectGroup :=
  [ { subject_prefix := .str "CS"
      course_numbers :=
        [ { course_number := .str "1337"
            academic_sessions :=
              [ { academic_session := .str "Fall24"
                  sections :=
                    [ { section_number := .str "001"
                        professors := [⟨.str "Smith", .str "J"⟩, ⟨.str "Doe", .str "A"⟩] } ] },
                { academic_session := .str "Spring25"
                  sections :=
                    [ { section_number := .str "002"
                        professors := [⟨.missing, .missing⟩] } ] } ] } ] },
    { subject_prefix := .str "MATH"
      course_numbers :=
        [ { course_number := .str "2417"
            academic_sessions :=
              [ { academic_session := .str "Fall24"
                  sections :=
                    [ { section_number := .str "901"
                        professors := [⟨.str "Lee", .str "K"⟩] } ] } ] } ] } ]

/-! ## The handler -/

/-- The status `http.StatusOK`. -/
def StatusOK : Nat := 200

/-- The status `http.StatusInternalServerError`. -/
def StatusInternalServerError : Nat := 500

/-- What the `Data` field of the envelope holds: the text of an error, or the
decoded documents. -/
inductive Payload (δ : Type) where
  | errorText (s : String) : Payload δ
  | documents (ds : List δ) : Payload δ
deriving DecidableEq, Repr

/-- The envelope `responses.AutocompleteResponse`. -/
structure AutocompleteResponse (δ : Type) where
  Status : Nat
  Message : String
  Data : Payload δ
deriving DecidableEq, Repr

/-- What the store answers during one request: the error of `Aggregate` (none
when it succeeds) and the outcome of `cursor.All`, the decoded documents or an
error. -/
structure StoreReply (δ : Type) where
  aggregateErr : Option String
  allResult : Except String (List δ)

/-- The steps of `AutocompleteDAG` that are visible outside it: the call of
`Aggregate`, the call of `cursor.All`, a response written with `c.JSON`, a
panic. -/
inductive Event (δ : Type) where
  | aggregateCalled : Event δ
  | cursorAllCalled : Event δ
  | json (code : Nat) (body : AutocompleteResponse δ) : Event δ
  | panicked (err : String) : Event δ
deriving DecidableEq, Repr

/-- The handler `AutocompleteDAG` from the call of `Aggregate` on, as the
sequence of its visible steps. -/
def AutocompleteDAG {δ : Type} (reply : StoreReply δ) : List (Event δ) :=
  Event.aggregateCalled ::
    match reply.aggregateErr with
    | some err =>
      [Event.json StatusInternalServerError
        { Status := StatusInternalServerError, Message := "error", Data := Payload.errorText err }]
    | none =>
      Event.cursorAllCalled ::
        match reply.allResult with
        | Except.error err => [Event.panicked err]
        | Except.ok docs =>
          [Event.json StatusOK
            { Status := StatusOK, Message := "success", Data := Payload.documents docs }]

/-- Whether a step writes a response. -/
def Event.isResponse {δ : Type} : Event δ → Bool
  | Event.json _ _ => true
  | _ => false

/-- Whether a step is a panic. -/
def Event.isPanic {δ : Type} : Event δ → Bool
  | Event.panicked _ => true
  | _ => false

/-! ## Configuration and request options (`api/configs`) -/

/-- The two kinds of failure of the number parsers of `strconv`. -/
inductive ErrKind where
  | ErrSyntax : ErrKind
  | ErrRange : ErrKind
deriving DecidableEq, Repr

/-- The error value `*strconv.NumError`: the failing function, the input and
the kind of failure. -/
structure NumError where
  Func : String
  Num : String
  Err : ErrKind
deriving DecidableEq, Repr

/-- The largest `uint64`. -/
def maxUint64 : Nat := 2 ^ 64 - 1

/-- The value of a byte as a decimal digit; none for every other byte. -/
def digitOf (c : Char) : Option Nat :=
  if '0' ≤ c ∧ c ≤ '9' then some (c.toNat - '0'.toNat) else none

/-- The loop of `strconv.ParseUint` for base 10 and bit size 64: `n` is the
value read so far.  A byte that is no digit ends it with a syntax error, a
value that leaves 64 bits with the largest value and a range error. -/
def parseUintLoop (n : Nat) : List Char → Nat × Option ErrKind
  | [] => (n, none)
  | c :: cs =>
    match digitOf c with
    | none => (0, some ErrKind.ErrSyntax)
    | some d =>
      if n ≥ maxUint64 / 10 + 1 then (maxUint64, some ErrKind.ErrRange)
      else
        if (n * 10 + d) % 2 ^ 64 < n * 10 ∨ (n * 10 + d) % 2 ^ 64 > maxUint64 then
          (maxUint64, some ErrKind.ErrRange)
        else parseUintLoop ((n * 10 + d) % 2 ^ 64) cs

/-- The function `strconv.ParseUint(s, 10, 64)` on the bytes of `s`. -/
def ParseUint (s : List Char) : Nat × Option ErrKind :=
  match s with
  | [] => (0, some ErrKind.ErrSyntax)
  | c :: cs => parseUintLoop 0 (c :: cs)

/-- The function `strconv.ParseInt(s, 10, 64)`: the value and the error (none
for nil). -/
def ParseInt (s : String) : Int × Option NumError :=
  match s.data with
  | [] => (0, some { Func := "ParseInt", Num := s, Err := ErrKind.ErrSyntax })
  | c :: cs =>
    let neg : Bool := decide (c = '-')
    let rest : List Char := if c = '+' ∨ c = '-' then cs else c :: cs
    match ParseUint rest with
    | (_, some ErrKind.ErrSyntax) =>
      (0, some { Func := "ParseInt", Num := s, Err := ErrKind.ErrSyntax })
    | (un, _) =>
      if neg = false ∧ un ≥ 2 ^ 63 then
        (2 ^ 63 - 1, some { Func := "ParseInt", Num := s, Err := ErrKind.ErrRange })
      else if neg = true ∧ un > 2 ^ 63 then
        (-(2 ^ 63), some { Func := "ParseInt", Num := s, Err := ErrKind.ErrRange })
      else (if neg then -(un : Int) else (un : Int), none)

/-- The process environment as `os.LookupEnv` reads it: the value of a
variable, none when it is not set. -/
abbrev Environ := String → Option String

/-- The function `GetPortString`; `fmt.Sprintf(":%s", portNumber)` is the colon
followed by the port number. -/
def GetPortString (env : Environ) : String :=
  let portNumber : String :=
    match env "Port" with
    | none => "8080"
    | some v => v
  ":" ++ portNumber

/-- The function `GetEnvLimit`. -/
def GetEnvLimit (env : Environ) : Int :=
  match env "LIMIT" with
  | none => 20
  | some limitString =>
    match ParseInt limitString with
    | (_, some _) => 20
    | (limit, none) => limit

/-- The query object `bson.M`, a map from keys to values. -/
abbrev BsonM (V : Type) := String → Option V

/-- The builtin `delete(m, key)` on a map. -/
def BsonM.delete {V : Type} (m : BsonM V) (key : String) : BsonM V :=
  fun k => if k = key then none else m k

/-- The request as `GetOptionLimit` reads it: for every key of the URL query its
first value, none when the key is absent. -/
structure Context where
  queryValue : String → Option String

/-- The method `c.Query(key)`: the first value of the key, the empty string when
the key is absent. -/
def Context.Query (c : Context) (key : String) : String :=
  match c.queryValue key with
  | none => ""
  | some v => v

/-- The options `options.FindOptions`, restricted to the two fields the code
sets; none is a nil pointer. -/
structure FindOptions where
  Skip : Option Int
  Limit : Option Int
deriving DecidableEq, Repr

/-- The call `options.Find()`. -/
def FindOptions.Find : FindOptions := { Skip := none, Limit := none }

/-- The method `SetSkip`. -/
def FindOptions.SetSkip (o : FindOptions) (i : Int) : FindOptions := { o with Skip := some i }

/-- The method `SetLimit`. -/
def FindOptions.SetLimit (o : FindOptions) (i : Int) : FindOptions := { o with Limit := some i }

/-- What `GetOptionLimit` leaves behind: the query map after the call, the
returned pointer to the options (none for nil) and the returned error (none for
nil). -/
structure OptionLimitResult (V : Type) where
  query : BsonM V
  findOptions : Option FindOptions
  err : Option NumError

/-- The function `GetOptionLimit`. -/
def GetOptionLimit {V : Type} (env : Environ) (query : BsonM V) (c : Context) :
    OptionLimitResult V :=
  let query1 := query.delete "offset"
  let limit : Int := GetEnvLimit env
  if c.Query "offset" = "" then
    { query := query1
      findOptions := some ((FindOptions.Find.SetSkip 0).SetLimit limit)
      err := none }
  else
    match ParseInt (c.Query "offset") with
    | (_, some err) =>
      { query := query1
        findOptions := some ((FindOptions.Find.SetSkip 0).SetLimit limit)
        err := some err }
    | (offset, none) =>
      { query := query1
        findOptions := some ((FindOptions.Find.SetSkip offset).SetLimit limit)
        err := none }

/-- The decimal value of a string of digits after the value `n`; none when a
byte is no digit. -/
def digitsValue (n : Nat) : List Char → Option Nat
  | [] => some n
  | c :: cs =>
    match digitOf c with
    | none => none
    | some d => digitsValue (n * 10 + d) cs

/-- The natural number a nonempty string of decimal digits denotes. -/
def decimalNat (s : List Char) : Option Nat :=
  match s with
  | [] => none
  | c :: cs => digitsValue 0 (c :: cs)

/-- The integer a string denotes as a base-10 signed 64-bit integer: an
optional sign, then at least one decimal digit, with a value from -2^63 to
2^63 - 1; none when the string is no such number. -/
def decimalInt64 (s : String) : Option Int :=
  match s.data with
  | [] => none
  | c :: cs =>
    if c = '-' then
      match decimalNat cs with
      | none => none
      | some n => if n ≤ 2 ^ 63 then some (-(n : Int)) else none
    else
      match decimalNat (if c = '+' then cs else c :: cs) with
      | none => none
      | some n => if n < 2 ^ 63 then some (n : Int) else none

/-! ## The CORS middleware (`api/server.go`) -/

/-- The response header `http.Header`: the values under every key. -/
abbrev Header := String → Option (List String)

/-- The method `Header.Set`: the key gets the single value `v`.  The four keys
the middleware sets are in canonical form already. -/
def Header.Set (h : Header) (key v : String) : Header :=
  fun k => if k = key then some [v] else h k

/-- The steps of the middleware on the gin context: setting a response header,
`c.IndentedJSON(code, body)`, and `c.Next()`. -/
inductive CorsStep where
  | setHeader (key v : String) : CorsStep
  | indentedJSON (code : Nat) (body : String) : CorsStep
  | next : CorsStep
deriving DecidableEq, Repr

/-- The handler returned by `CORS()`, as the steps it takes for a request with
the given method. -/
def CORS (method : String) : List CorsStep :=
  [ CorsStep.setHeader "Access-Control-Allow-Origin" "*",
    CorsStep.setHeader "Access-Control-Allow-Credentials" "true",
    CorsStep.setHeader "Access-Control-Allow-Headers" "Accept, x-api-key",
    CorsStep.setHeader "Access-Control-Allow-Methods" "OPTIONS, GET" ] ++
  (if method = "OPTIONS" then [CorsStep.indentedJSON 204 ""] else [CorsStep.next])

/-- The response header after the steps, from the header `h` before them. -/
def headerAfter (h : Header) : List CorsStep → Header
  | [] => h
  | CorsStep.setHeader key v :: steps => headerAfter (h.Set key v) steps
  | _ :: steps => headerAfter h steps

/-- The status codes the steps write. -/
def statusWritten : List CorsStep → List Nat
  | [] => []
  | CorsStep.indentedJSON code _ :: steps => code :: statusWritten steps
  | _ :: steps => statusWritten steps

/-- The number of calls of the next handler among the steps. -/
def nextCalls (steps : List CorsStep) : Nat :=
  steps.count CorsStep.next

/-! ## Lemmas on `$group` -/

section Lemmas
variable {α κ β : Type} [DecidableEq κ]

theorem groupPush_snoc (key : α → κ) (val : α → β) (ds : List α) (d : α) :
    groupPush key val (ds ++ [d]) = pushInto (key d) (val d) (groupPush key val ds) := by
  simp [groupPush, List.foldl_append]

theorem mem_firstSeen (l : List κ) (k : κ) : k ∈ firstSeen l ↔ k ∈ l := by
  induction l with
  | nil => simp [firstSeen]
  | cons a l ih =>
    simp only [firstSeen, List.mem_cons, List.mem_filter, ih]
    by_cases h : k = a
    · simp [h]
    · simp [h]

theorem firstSeen_nodup (l : List κ) : (firstSeen l).Nodup := by
  induction l with
  | nil => simp [firstSeen]
  | cons a l ih =>
    simp only [firstSeen, List.nodup_cons]
    exact ⟨by simp [List.mem_filter], ih.filter _⟩

theorem firstSeen_snoc (l : List κ) (a : κ) :
    firstSeen (l ++ [a]) = if a ∈ l then firstSeen l else firstSeen l ++ [a] := by
  induction l with
  | nil => simp [firstSeen]
  | cons b l ih =>
    show firstSeen (b :: (l ++ [a])) = _
    rw [firstSeen, ih]
    by_cases hab : a = b
    · subst hab
      by_cases hal : a ∈ l <;> simp [hal, firstSeen, List.filter_append]
    · by_cases hal : a ∈ l
      · simp [hab, hal, firstSeen]
      · simp [hab, hal, firstSeen, List.filter_append, List.filter_cons]

theorem pushInto_keys (k : κ) (v : β) (gs : List (κ × List β)) :
    (pushInto k v gs).map Prod.fst =
      if k ∈ gs.map Prod.fst then gs.map Prod.fst else gs.map Prod.fst ++ [k] := by
  induction gs with
  | nil => simp [pushInto]
  | cons g gs ih =>
    by_cases h : g.1 = k
    · simp [pushInto, h]
    · have h' : ¬ k = g.1 := fun e => h e.symm
      simp only [pushInto, h, if_false, List.map_cons, ih, List.mem_cons, h', false_or]
      split <;> simp

theorem groupPush_keys (key : α → κ) (val : α → β) (ds : List α) :
    (groupPush key val ds).map Prod.fst = firstSeen (ds.map key) := by
  induction ds using List.reverseRecOn with
  | nil => simp [groupPush, firstSeen]
  | append_singleton ds d ih =>
    rw [groupPush_snoc, pushInto_keys, ih, List.map_append, List.map_singleton, firstSeen_snoc]
    simp only [mem_firstSeen]

theorem ungroup_pushInto (k : κ) (v : β) (gs : List (κ × List β)) :
    (ungroup (pushInto k v gs)).Perm (ungroup gs ++ [(k, v)]) := by
  induction gs with
  | nil => simp [pushInto, ungroup]
  | cons g gs ih =>
    by_cases h : g.1 = k
    · simp only [pushInto, h, if_true, ungroup, List.flatMap_cons, List.map_append,
        List.map_singleton, List.append_assoc]
      exact List.Perm.append_left _ List.perm_append_comm
    · simp only [pushInto, h, if_false, ungroup, List.flatMap_cons, List.append_assoc]
      exact List.Perm.append_left _ ih

theorem ungroup_groupPush (key : α → κ) (val : α → β) (ds : List α) :
    (ungroup (groupPush key val ds)).Perm (ds.map (fun d => (key d, val d))) := by
  induction ds using List.reverseRecOn with
  | nil => simp [groupPush, ungroup]
  | append_singleton ds d ih =>
    rw [groupPush_snoc, List.map_append, List.map_singleton]
    exact (ungroup_pushInto _ _ _).trans (List.Perm.append_right _ ih)

theorem groupOf_pushInto (k k' : κ) (v : β) (gs : List (κ × List β)) :
    groupOf k' (pushInto k v gs) = if k = k' then groupOf k' gs ++ [v] else groupOf k' gs := by
  induction gs with
  | nil => by_cases h : k = k' <;> simp [pushInto, groupOf, h]
  | cons g gs ih =>
    by_cases h0 : g.1 = k
    · by_cases h : k = k'
      · subst h; simp [pushInto, groupOf, h0]
      · have : ¬ g.1 = k' := fun e => h (h0 ▸ e)
        simp [pushInto, groupOf, h0, h]
    · by_cases h1 : g.1 = k'
      · have : ¬ k = k' := fun e => h0 (e ▸ h1)
        have h2 : ¬ k' = k := fun e => this e.symm
        simp [pushInto, groupOf, h1, this, h2]
      · simp [pushInto, groupOf, h0, h1, ih]

theorem groupOf_groupPush (key : α → κ) (val : α → β) (ds : List α) (k : κ) :
    groupOf k (groupPush key val ds) = (ds.filter (fun d => decide (key d = k))).map val := by
  induction ds using List.reverseRecOn with
  | nil => simp [groupPush, groupOf]
  | append_singleton ds d ih =>
    rw [groupPush_snoc, groupOf_pushInto, ih]
    by_cases h : key d = k <;> simp [h, List.filter_append]

theorem groupOf_of_mem (gs : List (κ × List β)) (hn : (gs.map Prod.fst).Nodup)
    (g : κ × List β) (hg : g ∈ gs) : groupOf g.1 gs = g.2 := by
  induction gs with
  | nil => simp at hg
  | cons g0 gs ih =>
    simp only [List.map_cons, List.nodup_cons] at hn
    rcases List.mem_cons.1 hg with h | h
    · subst h; simp [groupOf]
    · have : g0.1 ≠ g.1 := fun e => hn.1 (e ▸ List.mem_map_of_mem Prod.fst h)
      simp [groupOf, this, ih hn.2 h]

theorem groupPush_nodup (key : α → κ) (val : α → β) (ds : List α) :
    ((groupPush key val ds).map Prod.fst).Nodup := by
  rw [groupPush_keys]; exact firstSeen_nodup _

theorem groupPush_values (key : α → κ) (val : α → β) (ds : List α)
    (g : κ × List β) (hg : g ∈ groupPush key val ds) :
    g.2 = (ds.filter (fun d => decide (key d = g.1))).map val := by
  rw [← groupOf_groupPush, groupOf_of_mem _ (groupPush_nodup key val ds) g hg]

theorem mem_groupPush_keys (key : α → κ) (val : α → β) (ds : List α) (k : κ) :
    k ∈ (groupPush key val ds).map Prod.fst ↔ k ∈ ds.map key := by
  rw [groupPush_keys, mem_firstSeen]

theorem filter_key_of_nodup (gs : List (κ × List β)) (hn : (gs.map Prod.fst).Nodup)
    (g : κ × List β) (hg : g ∈ gs) :
    gs.filter (fun x => decide (x.1 = g.1)) = [g] := by
  induction gs with
  | nil => simp at hg
  | cons g0 gs ih =>
    simp only [List.map_cons, List.nodup_cons] at hn
    rcases List.mem_cons.1 hg with h | h
    · subst h
      have : gs.filter (fun x => decide (x.1 = g.1)) = [] := by
        rw [List.filter_eq_nil_iff]
        intro x hx hx'
        have hx2 : x.1 = g.1 := by simpa using hx'
        exact hn.1 (hx2 ▸ List.mem_map_of_mem Prod.fst hx)
      simp [List.filter_cons, this]
    · have : g0.1 ≠ g.1 := fun e => hn.1 (e ▸ List.mem_map_of_mem Prod.fst h)
      simp [List.filter_cons, this, ih hn.2 h]

end Lemmas


section Order
variable {κ γ : Type} [DecidableEq κ] [DecidableEq γ]

theorem firstSeen_map_firstSeen (f : κ → γ) (l : List κ) :
    firstSeen ((firstSeen l).map f) = firstSeen (l.map f) := by
  induction l using List.reverseRecOn with
  | nil => rfl
  | append_singleton l a ih =>
    rw [firstSeen_snoc, List.map_append, List.map_singleton, firstSeen_snoc]
    by_cases h : a ∈ l
    · have h2 : f a ∈ l.map f := List.mem_map_of_mem f h
      simp [h, h2, ih]
    · simp only [h, if_false, List.map_append, List.map_singleton, firstSeen_snoc, ih]
      have : f a ∈ (firstSeen l).map f ↔ f a ∈ l.map f := by
        simp only [List.mem_map, mem_firstSeen]
      by_cases h2 : f a ∈ l.map f
      · simp only [this.2 h2, h2, if_true]
      · have h3 : ¬ f a ∈ (firstSeen l).map f := fun e => h2 (this.1 e)
        simp only [h3, h2, if_false]

theorem firstSeen_filter (p : κ → Bool) (l : List κ) :
    (firstSeen l).filter p = firstSeen (l.filter p) := by
  induction l using List.reverseRecOn with
  | nil => rfl
  | append_singleton l a ih =>
    rw [firstSeen_snoc, List.filter_append]
    by_cases h : a ∈ l
    · simp only [h, if_true, ih]
      by_cases hp : p a = true
      · have : a ∈ l.filter p := List.mem_filter.2 ⟨h, hp⟩
        simp [List.filter_cons, hp, firstSeen_snoc, this]
      · simp [List.filter_cons, hp]
    · simp only [h, if_false, List.filter_append, ih]
      by_cases hp : p a = true
      · have : ¬ a ∈ l.filter p := fun e => h (List.mem_filter.1 e).1
        simp [List.filter_cons, hp, firstSeen_snoc, this]
      · simp [List.filter_cons, hp]

theorem firstSeen_map_of_injOn (f : κ → γ) (l : List κ)
    (hinj : ∀ x ∈ l, ∀ y ∈ l, f x = f y → x = y) :
    (firstSeen l).map f = firstSeen (l.map f) := by
  induction l using List.reverseRecOn with
  | nil => rfl
  | append_singleton l a ih =>
    have ih' := ih (fun x hx y hy => hinj x (by simp [hx]) y (by simp [hy]))
    rw [firstSeen_snoc, List.map_append, List.map_singleton, firstSeen_snoc]
    by_cases h : a ∈ l
    · have h2 : f a ∈ l.map f := List.mem_map_of_mem f h
      simp [h, h2, ih']
    · have h2 : ¬ f a ∈ l.map f := by
        intro e
        obtain ⟨x, hx, hfx⟩ := List.mem_map.1 e
        have := hinj x (by simp [hx]) a (by simp) hfx
        exact h (this ▸ hx)
      simp [h, h2, ih']

end Order

section StageOrder
variable {α ρ κ β ι γ : Type} [DecidableEq κ] [DecidableEq ι] [DecidableEq γ]

/-- Keys of a stage fed with documents whose identifiers come in first-seen
order of the rows: the coarser keys come in first-seen order of the rows too. -/
theorem groupPush_keys_of_rows (key : α → κ) (val : α → β) (ds : List α) (rows : List ρ)
    (ids : α → ι) (rid : ρ → ι) (up : ι → κ)
    (hids : ds.map ids = firstSeen (rows.map rid)) (hup : ∀ d, key d = up (ids d)) :
    (groupPush key val ds).map Prod.fst = firstSeen (rows.map (fun r => up (rid r))) := by
  have h1 : ds.map key = (ds.map ids).map up := by
    simp [List.map_map, Function.comp_def, hup]
  rw [groupPush_keys, h1, hids, firstSeen_map_firstSeen, List.map_map]
  rfl

/-- Documents pushed into one group of such a stage come in first-seen order of
the rows that carry the key of the group. -/
theorem groupPush_values_of_rows (key : α → κ) (val : α → β) (ds : List α) (rows : List ρ)
    (ids : α → ι) (rid : ρ → ι) (up : ι → κ) (sub : β → γ) (low : ι → γ)
    (hids : ds.map ids = firstSeen (rows.map rid)) (hup : ∀ d, key d = up (ids d))
    (hlow : ∀ d, sub (val d) = low (ids d))
    (hinj : ∀ i j, up i = up j → low i = low j → i = j)
    (g : κ × List β) (hg : g ∈ groupPush key val ds) :
    g.2.map sub =
      firstSeen ((rows.filter (fun r => decide (up (rid r) = g.1))).map
        (fun r => low (rid r))) := by
  have h1 : g.2.map sub =
      ((ds.map ids).filter (fun i => decide (up i = g.1))).map low := by
    rw [groupPush_values key val ds g hg, List.map_map, List.filter_map, List.map_map]
    have hf : (fun d => decide (key d = g.1)) = ((fun i => decide (up i = g.1)) ∘ ids) := by
      funext d; simp [hup]
    have hm : sub ∘ val = low ∘ ids := by
      funext d; simp [hlow]
    rw [hf, hm]
  have h2 : (rows.filter (fun r => decide (up (rid r) = g.1))).map (fun r => low (rid r)) =
      ((rows.map rid).filter (fun i => decide (up i = g.1))).map low := by
    rw [List.filter_map, List.map_map]
    rfl
  rw [h1, h2, hids, firstSeen_filter]
  refine firstSeen_map_of_injOn low _ ?_
  intro x hx y hy hxy
  have kx : up x = g.1 := by simpa using (List.mem_filter.1 hx).2
  have ky : up y = g.1 := by simpa using (List.mem_filter.1 hy).2
  exact hinj x y (kx.trans ky.symm) hxy

end StageOrder

section StageLemmas
variable {α κ β : Type} [DecidableEq κ]

theorem mem_groupStage (st : Store) (key : α → κ) (val : α → β) (ds : List α)
    (g : κ × List β) : g ∈ groupStage st key val ds ↔ g ∈ groupPush key val ds :=
  (st.emit_perm _).mem_iff

theorem groupStage_keys_perm (st : Store) (key : α → κ) (val : α → β) (ds : List α) :
    ((groupStage st key val ds).map Prod.fst).Perm (firstSeen (ds.map key)) := by
  rw [← groupPush_keys key val ds]
  exact (st.emit_perm _).map _

theorem groupStage_keys_nodup (st : Store) (key : α → κ) (val : α → β) (ds : List α) :
    ((groupStage st key val ds).map Prod.fst).Nodup :=
  (groupStage_keys_perm st key val ds).nodup_iff.2 (firstSeen_nodup _)

theorem mem_groupStage_keys (st : Store) (key : α → κ) (val : α → β) (ds : List α) (k : κ) :
    k ∈ (groupStage st key val ds).map Prod.fst ↔ ∃ d ∈ ds, key d = k := by
  rw [(groupStage_keys_perm st key val ds).mem_iff, mem_firstSeen, List.mem_map]

theorem groupStage_values (st : Store) (key : α → κ) (val : α → β) (ds : List α)
    (g : κ × List β) (hg : g ∈ groupStage st key val ds) :
    g.2 = (ds.filter (fun d => decide (key d = g.1))).map val :=
  groupPush_values key val ds g ((mem_groupStage st key val ds g).1 hg)

theorem mem_group_values (st : Store) (key : α → κ) (val : α → β) (ds : List α)
    (g : κ × List β) (hg : g ∈ groupStage st key val ds) (v : β) (hv : v ∈ g.2) :
    ∃ d ∈ ds, key d = g.1 ∧ val d = v := by
  rw [groupStage_values st key val ds g hg, List.mem_map] at hv
  obtain ⟨d, hd, rfl⟩ := hv
  rw [List.mem_filter] at hd
  exact ⟨d, hd.1, by simpa using hd.2, rfl⟩

theorem groupStage_sub_nodup {ι γ : Type} (st : Store) (key : α → κ) (val : α → β)
    (ds : List α) (ids : α → ι) (sub : β → γ) (hn : (ds.map ids).Nodup)
    (hinj : ∀ a b, key a = key b → sub (val a) = sub (val b) → ids a = ids b)
    (g : κ × List β) (hg : g ∈ groupStage st key val ds) : (g.2.map sub).Nodup := by
  rw [groupStage_values st key val ds g hg, List.map_map]
  refine List.Nodup.map_on ?_ ((List.Nodup.of_map _ hn).filter _)
  intro x hx y hy hxy
  rw [List.mem_filter] at hx hy
  have kx : key x = g.1 := by simpa using hx.2
  have ky : key y = g.1 := by simpa using hy.2
  exact List.inj_on_of_nodup_map hn hx.1 hy.1 (hinj x y (kx.trans ky.symm) hxy)

end StageLemmas

/-! ## Lemmas on the pipeline -/

theorem ungroup_emit {κ β : Type} (st : Store) (gs : List (κ × List β)) :
    (ungroup (st.emit gs)).Perm (ungroup gs) :=
  List.Perm.flatMap_right _ (st.emit_perm gs)

theorem flatMap_groups {κ β γ : Type} (F : κ → β → List γ) (gs : List (κ × List β)) :
    gs.flatMap (fun g => g.2.flatMap (F g.1)) = (ungroup gs).flatMap (fun p => F p.1 p.2) := by
  simp [ungroup, List.flatMap_assoc, List.flatMap_map]

theorem groupStage_flatMap {α κ β γ : Type} [DecidableEq κ] (st : Store) (key : α → κ)
    (val : α → β) (F : κ → β → List γ) (ds : List α) :
    ((groupStage st key val ds).flatMap (fun g => g.2.flatMap (F g.1))).Perm
      (ds.flatMap (fun d => F (key d) (val d))) := by
  rw [flatMap_groups]
  have h : (ungroup (groupStage st key val ds)).Perm (ds.map (fun d => (key d, val d))) :=
    (ungroup_emit st _).trans (ungroup_groupPush key val ds)
  have h2 := List.Perm.flatMap_right (fun p : κ × β => F p.1 p.2) h
  rwa [List.flatMap_map] at h2

theorem flatMap_singleton_map {α β : Type} (f : α → β) (l : List α) :
    l.flatMap (fun x => [f x]) = l.map f := by
  induction l with
  | nil => rfl
  | cons a l ih => simp [List.flatMap_cons, ih]

theorem leaves_groupingStages (st : Store) (rows : List JoinRow) :
    (leaves (groupingStages st rows)).Perm (groupPush sectionId JoinRow.professor rows) := by
  have h4 := groupStage_flatMap st subjectId courseGroup
    (fun (sid : SubjectId) (c : CourseGroup) => courseLeaves sid.subject_prefix c)
    (groupCourses st (groupSessions st (groupSections st rows)))
  have h3 := groupStage_flatMap st courseId sessionGroup
    (fun (cid : CourseId) (a : SessionGroup) =>
      sessionLeaves cid.subject_prefix cid.course_number a)
    (groupSessions st (groupSections st rows))
  have h2 := groupStage_flatMap st sessionId sectionGroup
    (fun (sid : SessionId) (x : SectionGroup) =>
      [(({ subject_prefix := sid.subject_prefix, course_number := sid.course_number,
           academic_session := sid.academic_session,
           section_number := x.section_number } : SectionId), x.professors)])
    (groupSections st rows)
  have e4 : leaves (groupingStages st rows) =
      (groupStage st subjectId courseGroup
        (groupCourses st (groupSessions st (groupSections st rows)))).flatMap
        (fun g => g.2.flatMap (courseLeaves g.fst.subject_prefix)) := by
    simp only [leaves, groupingStages, groupSubjects, List.flatMap_map]
    rfl
  have e3 : (groupCourses st (groupSessions st (groupSections st rows))).flatMap
        (fun d => courseLeaves (SubjectId.subject_prefix (subjectId d)) (courseGroup d)) =
      (groupStage st courseId sessionGroup (groupSessions st (groupSections st rows))).flatMap
        (fun g => g.2.flatMap (sessionLeaves g.fst.subject_prefix g.1.course_number)) := rfl
  have e2 : (groupSessions st (groupSections st rows)).flatMap
        (fun d => sessionLeaves (CourseId.subject_prefix (courseId d)) (courseId d).course_number
          (sessionGroup d)) =
      (groupStage st sessionId sectionGroup (groupSections st rows)).flatMap
        (fun g => g.2.flatMap (fun x =>
          [(({ subject_prefix := g.fst.subject_prefix, course_number := g.1.course_number,
               academic_session := g.1.academic_session,
               section_number := x.section_number } : SectionId), x.professors)])) := by
    simp only [groupSessions, sessionLeaves, courseId, sessionGroup, flatMap_singleton_map]
  have e1 : (groupSections st rows).flatMap (fun d =>
        [(({ subject_prefix := SessionId.subject_prefix (sessionId d),
             course_number := (sessionId d).course_number,
             academic_session := (sessionId d).academic_session,
             section_number := (sectionGroup d).section_number } : SectionId),
           (sectionGroup d).professors)]) = groupSections st rows := by
    simp only [sessionId, sectionGroup]
    exact List.flatMap_singleton' _
  rw [e4]
  refine h4.trans ?_
  rw [e3]
  refine h3.trans ?_
  rw [e2]
  refine h2.trans ?_
  rw [e1]
  exact st.emit_perm _


/-! Membership of keys and of pushed documents in the successive stages. -/

theorem mem_groupSections_keys (st : Store) (rows : List JoinRow) (k : SectionId) :
    k ∈ (groupSections st rows).map Prod.fst ↔ ∃ r ∈ rows, sectionId r = k :=
  mem_groupStage_keys st sectionId JoinRow.professor rows k

theorem mem_groupSessions_keys (st : Store) (rows : List JoinRow) (k : SessionId) :
    k ∈ (groupSessions st (groupSections st rows)).map Prod.fst ↔
      ∃ r ∈ rows, rowSessionId r = k := by
  rw [groupSessions, mem_groupStage_keys]
  constructor
  · rintro ⟨d, hd, rfl⟩
    obtain ⟨r, hr, hrd⟩ := (mem_groupSections_keys st rows d.1).1 (List.mem_map_of_mem _ hd)
    exact ⟨r, hr, by simp [rowSessionId, sessionId, ← hrd, sectionId]⟩
  · rintro ⟨r, hr, rfl⟩
    obtain ⟨d, hd, hdk⟩ := List.mem_map.1 ((mem_groupSections_keys st rows _).2 ⟨r, hr, rfl⟩)
    exact ⟨d, hd, by simp [rowSessionId, sessionId, hdk, sectionId]⟩

theorem mem_groupCourses_keys (st : Store) (rows : List JoinRow) (k : CourseId) :
    k ∈ (groupCourses st (groupSessions st (groupSections st rows))).map Prod.fst ↔
      ∃ r ∈ rows, rowCourseId r = k := by
  rw [groupCourses, mem_groupStage_keys]
  constructor
  · rintro ⟨d, hd, rfl⟩
    obtain ⟨r, hr, hrd⟩ := (mem_groupSessions_keys st rows d.1).1 (List.mem_map_of_mem _ hd)
    exact ⟨r, hr, by simp [rowCourseId, courseId, ← hrd, rowSessionId]⟩
  · rintro ⟨r, hr, rfl⟩
    obtain ⟨d, hd, hdk⟩ := List.mem_map.1 ((mem_groupSessions_keys st rows _).2 ⟨r, hr, rfl⟩)
    exact ⟨d, hd, by simp [rowCourseId, courseId, hdk, rowSessionId]⟩

theorem mem_groupSubjects_keys (st : Store) (rows : List JoinRow) (k : SubjectId) :
    k ∈ (groupSubjects st (groupCourses st (groupSessions st (groupSections st rows)))).map
        Prod.fst ↔ ∃ r ∈ rows, rowSubjectId r = k := by
  rw [groupSubjects, mem_groupStage_keys]
  constructor
  · rintro ⟨d, hd, rfl⟩
    obtain ⟨r, hr, hrd⟩ := (mem_groupCourses_keys st rows d.1).1 (List.mem_map_of_mem _ hd)
    exact ⟨r, hr, by simp [rowSubjectId, subjectId, ← hrd, rowCourseId]⟩
  · rintro ⟨r, hr, rfl⟩
    obtain ⟨d, hd, hdk⟩ := List.mem_map.1 ((mem_groupCourses_keys st rows _).2 ⟨r, hr, rfl⟩)
    exact ⟨d, hd, by simp [rowSubjectId, subjectId, hdk, rowCourseId]⟩

theorem sections_nodup (st : Store) (rows : List JoinRow) (g : SessionId × List SectionGroup)
    (hg : g ∈ groupSessions st (groupSections st rows)) :
    (g.2.map SectionGroup.section_number).Nodup := by
  refine groupStage_sub_nodup st sessionId sectionGroup (groupSections st rows) Prod.fst
    SectionGroup.section_number (groupStage_keys_nodup st _ _ rows) ?_ g hg
  rintro ⟨⟨s1, c1, a1, n1⟩, p1⟩ ⟨⟨s2, c2, a2, n2⟩, p2⟩ h1 h2
  simp only [sessionId, sectionGroup, SessionId.mk.injEq] at h1 h2
  simp [h1, h2]

theorem sessions_nodup (st : Store) (rows : List JoinRow) (g : CourseId × List SessionGroup)
    (hg : g ∈ groupCourses st (groupSessions st (groupSections st rows))) :
    (g.2.map SessionGroup.academic_session).Nodup := by
  refine groupStage_sub_nodup st courseId sessionGroup (groupSessions st (groupSections st rows))
    Prod.fst SessionGroup.academic_session (groupStage_keys_nodup st _ _ _) ?_ g hg
  rintro ⟨⟨s1, c1, a1⟩, p1⟩ ⟨⟨s2, c2, a2⟩, p2⟩ h1 h2
  simp only [courseId, sessionGroup, CourseId.mk.injEq] at h1 h2
  simp [h1, h2]

theorem courses_nodup (st : Store) (rows : List JoinRow) (g : SubjectId × List CourseGroup)
    (hg : g ∈ groupSubjects st (groupCourses st (groupSessions st (groupSections st rows)))) :
    (g.2.map CourseGroup.course_number).Nodup := by
  refine groupStage_sub_nodup st subjectId courseGroup
    (groupCourses st (groupSessions st (groupSections st rows)))
    Prod.fst CourseGroup.course_number (groupStage_keys_nodup st _ _ _) ?_ g hg
  rintro ⟨⟨s1, c1⟩, p1⟩ ⟨⟨s2, c2⟩, p2⟩ h1 h2
  simp only [subjectId, courseGroup, SubjectId.mk.injEq] at h1 h2
  simp [h1, h2]

/-- Every SubjectGroup of the output is the projection of a group of the fourth
stage, every CourseGroup in it the document pushed for a group of the third
stage, every SessionGroup in that the document pushed for a group of the
second stage. -/
theorem subjectGroup_origin (st : Store) (rows : List JoinRow) (s : SubjectGroup)
    (hs : s ∈ groupingStages st rows) :
    ∃ g ∈ groupSubjects st (groupCourses st (groupSessions st (groupSections st rows))),
      projectSubject g = s := by
  simpa [groupingStages] using hs

theorem courseGroup_origin (st : Store) (rows : List JoinRow) (g : SubjectId × List CourseGroup)
    (hg : g ∈ groupSubjects st (groupCourses st (groupSessions st (groupSections st rows))))
    (c : CourseGroup) (hc : c ∈ g.2) :
    ∃ d ∈ groupCourses st (groupSessions st (groupSections st rows)),
      subjectId d = g.1 ∧ courseGroup d = c :=
  mem_group_values st subjectId courseGroup _ g hg c hc

theorem sessionGroup_origin (st : Store) (rows : List JoinRow) (g : CourseId × List SessionGroup)
    (hg : g ∈ groupCourses st (groupSessions st (groupSections st rows)))
    (a : SessionGroup) (ha : a ∈ g.2) :
    ∃ d ∈ groupSessions st (groupSections st rows), courseId d = g.1 ∧ sessionGroup d = a :=
  mem_group_values st courseId sessionGroup _ g hg a ha


/-- The leaves of the output with the key of an input row: one leaf, holding the
professor entries of the rows with that key in input order. -/
theorem leaves_filter_key (st : Store) (rows : List JoinRow) (r : JoinRow) (hr : r ∈ rows) :
    (leaves (groupingStages st rows)).filter (fun l => decide (l.1 = sectionId r)) =
      [(sectionId r,
        (rows.filter (fun x => decide (sectionId x = sectionId r))).map JoinRow.professor)] := by
  have hk : sectionId r ∈ (groupPush sectionId JoinRow.professor rows).map Prod.fst :=
    (mem_groupPush_keys _ _ _ _).2 (List.mem_map_of_mem _ hr)
  obtain ⟨g, hg, hgk⟩ := List.mem_map.1 hk
  have hv := groupPush_values sectionId JoinRow.professor rows g hg
  have hf := filter_key_of_nodup _ (groupPush_nodup sectionId JoinRow.professor rows) g hg
  have hp := (leaves_groupingStages st rows).filter (fun l => decide (l.1 = sectionId r))
  rw [hgk] at hf hv
  rw [hf] at hp
  rw [List.perm_singleton.1 hp]
  cases g
  simp only at hgk hv
  rw [hgk, hv]

theorem mem_leaves (out : List SubjectGroup) (k : SectionId) (ps : List ProfessorRef) :
    (k, ps) ∈ leaves out ↔
      ∃ s ∈ out, ∃ c ∈ s.course_numbers, ∃ a ∈ c.academic_sessions, ∃ x ∈ a.sections,
        k = { subject_prefix := s.subject_prefix, course_number := c.course_number,
              academic_session := a.academic_session, section_number := x.section_number } ∧
        ps = x.professors := by
  simp only [leaves, subjectLeaves, courseLeaves, sessionLeaves, List.mem_flatMap, List.mem_map,
    Prod.mk.injEq]
  constructor
  · rintro ⟨s, hs, c, hc, a, ha, x, hx, h1, h2⟩
    exact ⟨s, hs, c, hc, a, ha, x, hx, h1.symm, h2.symm⟩
  · rintro ⟨s, hs, c, hc, a, ha, x, hx, h1, h2⟩
    exact ⟨s, hs, c, hc, a, ha, x, hx, h1.symm, h2.symm⟩


/-! The keys of every stage when groups are emitted in first-encounter order. -/

theorem groupSections_keys_firstEncounter (rows : List JoinRow) :
    (groupSections Store.firstEncounter rows).map Prod.fst = firstSeen (rows.map sectionId) :=
  groupPush_keys sectionId JoinRow.professor rows

theorem groupSessions_keys_firstEncounter (rows : List JoinRow) :
    (groupSessions Store.firstEncounter (groupSections Store.firstEncounter rows)).map Prod.fst =
      firstSeen (rows.map rowSessionId) :=
  groupPush_keys_of_rows sessionId sectionGroup _ rows Prod.fst sectionId
    (fun k => { subject_prefix := k.subject_prefix, course_number := k.course_number,
                academic_session := k.academic_session })
    (groupSections_keys_firstEncounter rows) (fun _ => rfl)

theorem groupCourses_keys_firstEncounter (rows : List JoinRow) :
    (groupCourses Store.firstEncounter (groupSessions Store.firstEncounter
      (groupSections Store.firstEncounter rows))).map Prod.fst =
      firstSeen (rows.map rowCourseId) :=
  groupPush_keys_of_rows courseId sessionGroup _ rows Prod.fst rowSessionId
    (fun k => { subject_prefix := k.subject_prefix, course_number := k.course_number })
    (groupSessions_keys_firstEncounter rows) (fun _ => rfl)

theorem groupSubjects_keys_firstEncounter (rows : List JoinRow) :
    (groupSubjects Store.firstEncounter (groupCourses Store.firstEncounter
      (groupSessions Store.firstEncounter (groupSections Store.firstEncounter rows)))).map
        Prod.fst = firstSeen (rows.map rowSubjectId) :=
  groupPush_keys_of_rows subjectId courseGroup _ rows Prod.fst rowCourseId
    (fun k => { subject_prefix := k.subject_prefix })
    (groupCourses_keys_firstEncounter rows) (fun _ => rfl)

theorem courses_firstEncounter (rows : List JoinRow) (g : SubjectId × List CourseGroup)
    (hg : g ∈ groupSubjects Store.firstEncounter (groupCourses Store.firstEncounter
      (groupSessions Store.firstEncounter (groupSections Store.firstEncounter rows)))) :
    g.2.map CourseGroup.course_number =
      firstSeen ((rows.filter (fun r => decide (rowSubjectId r = g.1))).map
        JoinRow.course_number) :=
  groupPush_values_of_rows subjectId courseGroup _ rows Prod.fst rowCourseId
    (fun k => { subject_prefix := k.subject_prefix }) CourseGroup.course_number
    CourseId.course_number (groupCourses_keys_firstEncounter rows) (fun _ => rfl) (fun _ => rfl)
    (by rintro ⟨s1, c1⟩ ⟨s2, c2⟩ h1 h2
        simp only [SubjectId.mk.injEq] at h1 h2
        simp [h1, h2]) g hg

theorem sessions_firstEncounter (rows : List JoinRow) (g : CourseId × List SessionGroup)
    (hg : g ∈ groupCourses Store.firstEncounter
      (groupSessions Store.firstEncounter (groupSections Store.firstEncounter rows))) :
    g.2.map SessionGroup.academic_session =
      firstSeen ((rows.filter (fun r => decide (rowCourseId r = g.1))).map
        JoinRow.academic_session) :=
  groupPush_values_of_rows courseId sessionGroup _ rows Prod.fst rowSessionId
    (fun k => { subject_prefix := k.subject_prefix, course_number := k.course_number })
    SessionGroup.academic_session SessionId.academic_session
    (groupSessions_keys_firstEncounter rows) (fun _ => rfl) (fun _ => rfl)
    (by rintro ⟨s1, c1, a1⟩ ⟨s2, c2, a2⟩ h1 h2
        simp only [CourseId.mk.injEq] at h1 h2
        simp [h1, h2]) g hg

theorem sections_firstEncounter (rows : List JoinRow) (g : SessionId × List SectionGroup)
    (hg : g ∈ groupSessions Store.firstEncounter (groupSections Store.firstEncounter rows)) :
    g.2.map SectionGroup.section_number =
      firstSeen ((rows.filter (fun r => decide (rowSessionId r = g.1))).map
        JoinRow.section_number) :=
  groupPush_values_of_rows sessionId sectionGroup _ rows Prod.fst sectionId
    (fun k => { subject_prefix := k.subject_prefix, course_number := k.course_number,
                academic_session := k.academic_session })
    SectionGroup.section_number SectionId.section_number
    (groupSections_keys_firstEncounter rows) (fun _ => rfl) (fun _ => rfl)
    (by rintro ⟨s1, c1, a1, n1⟩ ⟨s2, c2, a2, n2⟩ h1 h2
        simp only [SessionId.mk.injEq] at h1 h2
        simp [h1, h2]) g hg


/-! ## Lemmas on the number parser -/

theorem le_of_digitsValue (cs : List Char) :
    ∀ (n m : Nat), digitsValue n cs = some m → n ≤ m := by
  induction cs with
  | nil =>
    intro n m h
    simp only [digitsValue, Option.some.injEq] at h
    omega
  | cons c cs ih =>
    intro n m h
    simp only [digitsValue] at h
    cases hd : digitOf c with
    | none => simp [hd] at h
    | some d =>
      simp only [hd] at h
      have := ih _ _ h
      omega

theorem digitOf_le (c : Char) (d : Nat) (h : digitOf c = some d) : d ≤ 9 := by
  unfold digitOf at h
  split at h
  · rename_i hc
    simp only [Option.some.injEq] at h
    have h2 : c.toNat ≤ '9'.toNat := hc.2
    have h3 : ('9' : Char).toNat = 57 := by decide
    have h4 : ('0' : Char).toNat = 48 := by decide
    omega
  · simp at h

/-- The loop of `ParseUint` against the decimal value of the digits. -/
theorem parseUintLoop_spec (cs : List Char) :
    ∀ n : Nat, n ≤ maxUint64 →
      match digitsValue n cs with
      | some m =>
        parseUintLoop n cs =
          if m ≤ maxUint64 then (m, none) else (maxUint64, some ErrKind.ErrRange)
      | none =>
        parseUintLoop n cs = (0, some ErrKind.ErrSyntax) ∨
          parseUintLoop n cs = (maxUint64, some ErrKind.ErrRange) := by
  induction cs with
  | nil =>
    intro n hn
    simp [digitsValue, parseUintLoop, hn]
  | cons c cs ih =>
    intro n hn
    simp only [digitsValue, parseUintLoop]
    cases hd : digitOf c with
    | none => simp
    | some d =>
      have hd9 := digitOf_le c d hd
      simp only []
      by_cases hcut : n ≥ maxUint64 / 10 + 1
      · simp only [hcut, if_true]
        cases hv : digitsValue (n * 10 + d) cs with
        | none => simp
        | some m =>
          have hm := le_of_digitsValue cs _ _ hv
          have : ¬ m ≤ maxUint64 := by
            unfold maxUint64 at hcut ⊢
            omega
          simp [this]
      · simp only [hcut, if_false]
        by_cases hov : (n * 10 + d) % 2 ^ 64 < n * 10 ∨ (n * 10 + d) % 2 ^ 64 > maxUint64
        · simp only [hov, if_true]
          cases hv : digitsValue (n * 10 + d) cs with
          | none => simp
          | some m =>
            have hm := le_of_digitsValue cs _ _ hv
            have : ¬ m ≤ maxUint64 := by
              unfold maxUint64 at hcut hov ⊢
              omega
            simp [this]
        · simp only [hov, if_false]
          have hsmall : (n * 10 + d) % 2 ^ 64 = n * 10 + d := by
            unfold maxUint64 at hcut hov
            omega
          rw [hsmall]
          exact ih (n * 10 + d) (by unfold maxUint64 at hcut hov ⊢; omega)

/-- The function `ParseUint` against the decimal value of a string. -/
theorem ParseUint_spec (s : List Char) :
    match decimalNat s with
    | some m =>
      ParseUint s = if m ≤ maxUint64 then (m, none) else (maxUint64, some ErrKind.ErrRange)
    | none =>
      ParseUint s = (0, some ErrKind.ErrSyntax) ∨
        ParseUint s = (maxUint64, some ErrKind.ErrRange) := by
  cases s with
  | nil => simp [decimalNat, ParseUint]
  | cons c cs =>
    simp only [decimalNat, ParseUint]
    exact parseUintLoop_spec (c :: cs) 0 (by unfold maxUint64; omega)

/-- The function `ParseInt` against the reading of a string as a base-10
signed 64-bit integer: it returns the integer with a nil error when the string
is such a number, and an error otherwise. -/
theorem ParseInt_spec (s : String) :
    match decimalInt64 s with
    | some n => ParseInt s = (n, none)
    | none => ∃ e, (ParseInt s).2 = some e := by
  have hmax : maxUint64 = 18446744073709551615 := by decide
  unfold decimalInt64 ParseInt
  cases hs : s.data with
  | nil => simp
  | cons c cs =>
    simp only []
    by_cases hneg : c = '-'
    · simp only [hneg, if_true, or_true, decide_True]
      have hu := ParseUint_spec cs
      cases hv : decimalNat cs with
      | none =>
        simp only [hv] at hu
        rcases hu with hu | hu
        · simp [hu]
        · simp [hu, hmax]
      | some m =>
        simp only [hv] at hu
        by_cases hm : m ≤ maxUint64
        · simp only [hm, if_true] at hu
          by_cases h63 : m ≤ 9223372036854775808
          · have h' : ¬ 9223372036854775808 < m := by omega
            simp [hu, h63, h']
          · have h' : 9223372036854775808 < m := by omega
            simp [hu, h63, h']
        · simp only [hm, if_false] at hu
          have h1 : ¬ m ≤ 9223372036854775808 := by rw [hmax] at hm; omega
          simp [hu, h1, hmax]
    · simp only [hneg, if_false, or_false, decide_False]
      have hu := ParseUint_spec (if c = '+' then cs else c :: cs)
      cases hv : decimalNat (if c = '+' then cs else c :: cs) with
      | none =>
        simp only [hv] at hu
        rcases hu with hu | hu
        · simp [hu]
        · simp [hu, hmax]
      | some m =>
        simp only [hv] at hu
        by_cases hm : m ≤ maxUint64
        · simp only [hm, if_true] at hu
          by_cases h63 : m < 9223372036854775808
          · have h' : ¬ 9223372036854775808 ≤ m := by omega
            simp [hu, h63, h']
          · have h' : 9223372036854775808 ≤ m := by omega
            simp [hu, h63, h']
        · simp only [hm, if_false] at hu
          have h1 : ¬ m < 9223372036854775808 := by rw [hmax] at hm; omega
          simp [hu, h1, hmax]

/-- Every document that reaches a `$group` stage is pushed into the group of
its key. -/
theorem pushed_of_mem {α κ β : Type} [DecidableEq κ] (st : Store) (key : α → κ)
    (val : α → β) (ds : List α) (d : α) (hd : d ∈ ds) :
    ∃ g ∈ groupStage st key val ds, g.1 = key d ∧ val d ∈ g.2 := by
  obtain ⟨g, hg, hgk⟩ := List.mem_map.1
    ((mem_groupStage_keys st key val ds (key d)).2 ⟨d, hd, rfl⟩)
  refine ⟨g, hg, hgk, ?_⟩
  rw [groupStage_values st key val ds g hg]
  exact List.mem_map.2 ⟨d, List.mem_filter.2 ⟨hd, by simp [hgk]⟩, rfl⟩

/-- A store is its emission order. -/
theorem Store.eq_of_emit (st₁ st₂ : Store)
    (h : ∀ (α : Type) (l : List α), st₁.emit l = st₂.emit l) : st₁ = st₂ := by
  cases st₁ with
  | mk e₁ p₁ =>
    cases st₂ with
    | mk e₂ p₂ =>
      have he : @e₁ = @e₂ := by
        funext α l
        exact h α l
      subst he
      rfl

/-! ## The grouping stages: claims -/

/-- C1: for every store and every sequence of join rows, the rows that share the
(subject_prefix, course_number, academic_session, section_number) of a row `r`
of the input sit in one and the same SectionGroup, the only leaf of the output
tree with that path, and the professors list of that SectionGroup is exactly the
professor entries of those rows in input order, duplicates kept, so that its
length is the number of such rows. -/
theorem equal_keys_share_one_sectionGroup (st : Store) (rows : List JoinRow) (r : JoinRow)
    (hr : r ∈ rows) :
    (leaves (groupingStages st rows)).filter (fun l => decide (l.1 = sectionId r)) =
        [(sectionId r,
          (rows.filter (fun x => decide (sectionId x = sectionId r))).map JoinRow.professor)] ∧
      ((rows.filter (fun x => decide (sectionId x = sectionId r))).map JoinRow.professor).length =
        rows.countP (fun x => decide (sectionId x = sectionId r)) := by
  exact ⟨leaves_filter_key st rows r hr,
    by rw [List.length_map, List.countP_eq_length_filter]⟩

/-- Witness for C1 on the scenario rows, read from a store that emits groups in
reverse order. -/
theorem equal_keys_share_one_sectionGroup_witness :
    (leaves (groupingStages Store.lastEncounter scenarioRows)).filter
        (fun l => decide (l.1 = sectionId
          { subject_prefix := .str "CS", course_number := .str "1337",
            academic_session := .str "Fall24", section_number := .str "001",
            professor := ⟨.str "Doe", .str "A"⟩ })) =
        [(sectionId
          { subject_prefix := .str "CS", course_number := .str "1337",
            academic_session := .str "Fall24", section_number := .str "001",
            professor := ⟨.str "Doe", .str "A"⟩ },
          (scenarioRows.filter (fun x => decide (sectionId x = sectionId
            { subject_prefix := .str "CS", course_number := .str "1337",
              academic_session := .str "Fall24", section_number := .str "001",
              professor := ⟨.str "Doe", .str "A"⟩ }))).map JoinRow.professor)] ∧
      ((scenarioRows.filter (fun x => decide (sectionId x = sectionId
            { subject_prefix := .str "CS", course_number := .str "1337",
              academic_session := .str "Fall24", section_number := .str "001",
              professor := ⟨.str "Doe", .str "A"⟩ }))).map JoinRow.professor).length =
        scenarioRows.countP (fun x => decide (sectionId x = sectionId
            { subject_prefix := .str "CS", course_number := .str "1337",
              academic_session := .str "Fall24", section_number := .str "001",
              professor := ⟨.str "Doe", .str "A"⟩ })) :=
  equal_keys_share_one_sectionGroup Store.lastEncounter scenarioRows _ (by decide)

/-- C2: for every store and every sequence of join rows, the number of
(subject, course, session, section) leaf paths of the output tree is the number
of distinct key tuples among the rows; no path occurs twice (rows with equal
keys are not split) and the paths are exactly the keys of the rows (rows with
unequal keys are not merged). -/
theorem leaf_count_is_distinct_key_count (st : Store) (rows : List JoinRow) :
    (leaves (groupingStages st rows)).length = ((rows.map sectionId).toFinset).card ∧
      ((leaves (groupingStages st rows)).map Prod.fst).Nodup ∧
      ∀ k : SectionId,
        k ∈ (leaves (groupingStages st rows)).map Prod.fst ↔ k ∈ rows.map sectionId := by
  have hp : ((leaves (groupingStages st rows)).map Prod.fst).Perm
      (firstSeen (rows.map sectionId)) := by
    rw [← groupPush_keys sectionId JoinRow.professor rows]
    exact (leaves_groupingStages st rows).map _
  refine ⟨?_, hp.nodup_iff.2 (firstSeen_nodup _), fun k => ?_⟩
  · have h1 : (leaves (groupingStages st rows)).length =
        (firstSeen (rows.map sectionId)).length := by
      simpa using hp.length_eq
    rw [h1, ← List.toFinset_card_of_nodup (firstSeen_nodup _)]
    congr 1
    ext k
    simp only [List.mem_toFinset, mem_firstSeen]
  · rw [hp.mem_iff, mem_firstSeen]

/-- C3: for every store and every sequence of join rows, the output has exactly
one SubjectGroup per distinct subject_prefix of the input (none repeated, none
missing, none invented), and below it keys are unique at every level: no two
CourseGroups of a SubjectGroup share a course_number, no two SessionGroups of
a CourseGroup share an academic_session, no two SectionGroups of a
SessionGroup share a section_number. -/
theorem group_keys_unique_at_every_level (st : Store) (rows : List JoinRow) :
    ((groupingStages st rows).map SubjectGroup.subject_prefix).Nodup ∧
      (∀ v : Value, v ∈ (groupingStages st rows).map SubjectGroup.subject_prefix ↔
        v ∈ rows.map JoinRow.subject_prefix) ∧
      ∀ s ∈ groupingStages st rows,
        (s.course_numbers.map CourseGroup.course_number).Nodup ∧
        ∀ c ∈ s.course_numbers,
          (c.academic_sessions.map SessionGroup.academic_session).Nodup ∧
          ∀ a ∈ c.academic_sessions, (a.sections.map SectionGroup.section_number).Nodup := by
  have hmap : (groupingStages st rows).map SubjectGroup.subject_prefix =
      ((groupSubjects st (groupCourses st (groupSessions st (groupSections st rows)))).map
        Prod.fst).map SubjectId.subject_prefix := by
    simp [groupingStages, List.map_map, Function.comp_def, projectSubject]
  refine ⟨?_, fun v => ?_, fun s hs => ?_⟩
  · rw [hmap]
    refine List.Nodup.map ?_ (groupStage_keys_nodup st _ _ _)
    rintro ⟨a⟩ ⟨b⟩ h
    simpa using h
  · rw [hmap, List.mem_map]
    constructor
    · rintro ⟨k, hk, rfl⟩
      obtain ⟨r, hr, rfl⟩ := (mem_groupSubjects_keys st rows k).1 hk
      exact List.mem_map.2 ⟨r, hr, rfl⟩
    · intro hv
      obtain ⟨r, hr, rfl⟩ := List.mem_map.1 hv
      exact ⟨rowSubjectId r, (mem_groupSubjects_keys st rows _).2 ⟨r, hr, rfl⟩, rfl⟩
  · obtain ⟨g, hg, rfl⟩ := subjectGroup_origin st rows s hs
    refine ⟨courses_nodup st rows g hg, fun c hc => ?_⟩
    obtain ⟨d, hd, -, rfl⟩ := courseGroup_origin st rows g hg c hc
    refine ⟨sessions_nodup st rows d hd, fun a ha => ?_⟩
    obtain ⟨e, he, -, rfl⟩ := sessionGroup_origin st rows d hd a ha
    exact sections_nodup st rows e he

/-- C4: for every store and every sequence of join rows, a row whose
academic_session, section_number and professor fields are all null or missing
is not dropped: the output has a SubjectGroup, CourseGroup, SessionGroup,
SectionGroup chain for its (subject_prefix, course_number, session, section)
key that shows the placeholders as the session value, as the section number and
as an entry of the professors list, and it has exactly one leaf with that key. -/
theorem placeholder_row_keeps_its_chain (st : Store) (rows : List JoinRow) (r : JoinRow)
    (hr : r ∈ rows) (ha : r.academic_session.isPlaceholder = true)
    (hn : r.section_number.isPlaceholder = true)
    (hf : r.professor.first_name.isPlaceholder = true)
    (hl : r.professor.last_name.isPlaceholder = true) :
    (∃ s ∈ groupingStages st rows, ∃ c ∈ s.course_numbers, ∃ a ∈ c.academic_sessions,
        ∃ x ∈ a.sections,
          s.subject_prefix = r.subject_prefix ∧ c.course_number = r.course_number ∧
          a.academic_session = r.academic_session ∧ a.academic_session.isPlaceholder = true ∧
          x.section_number = r.section_number ∧ x.section_number.isPlaceholder = true ∧
          ∃ p ∈ x.professors, p = r.professor ∧ p.first_name.isPlaceholder = true ∧
            p.last_name.isPlaceholder = true) ∧
      ((leaves (groupingStages st rows)).filter
        (fun l => decide (l.1 = sectionId r))).length = 1 := by
  have hfk := leaves_filter_key st rows r hr
  refine ⟨?_, by rw [hfk]; rfl⟩
  have hm : (sectionId r,
      (rows.filter (fun x => decide (sectionId x = sectionId r))).map JoinRow.professor) ∈
      leaves (groupingStages st rows) := by
    have : (sectionId r,
        (rows.filter (fun x => decide (sectionId x = sectionId r))).map JoinRow.professor) ∈
        (leaves (groupingStages st rows)).filter (fun l => decide (l.1 = sectionId r)) := by
      rw [hfk]; exact List.mem_singleton_self _
    exact (List.mem_filter.1 this).1
  obtain ⟨s, hs, c, hc, a, hac, x, hx, hk, hps⟩ := (mem_leaves _ _ _).1 hm
  simp only [sectionId, SectionId.mk.injEq] at hk
  obtain ⟨k1, k2, k3, k4⟩ := hk
  refine ⟨s, hs, c, hc, a, hac, x, hx, k1.symm, k2.symm, k3.symm, k3 ▸ ha, k4.symm, k4 ▸ hn,
    r.professor, ?_, rfl, hf, hl⟩
  rw [← hps]
  exact List.mem_map.2 ⟨r, List.mem_filter.2 ⟨hr, by simp⟩, rfl⟩

/-- Witness for C4: a course without sections, joined and projected, next to an
ordinary row. -/
theorem placeholder_row_keeps_its_chain_witness :
    (∃ s ∈ groupingStages Store.lastEncounter
          [projectRow ⟨⟨7, .str "CS", .str "1337", []⟩, none, none⟩,
            ⟨.str "CS", .str "1337", .str "Fall24", .str "001", ⟨.str "Doe", .str "A"⟩⟩],
        ∃ c ∈ s.course_numbers, ∃ a ∈ c.academic_sessions, ∃ x ∈ a.sections,
          s.subject_prefix =
            JoinRow.subject_prefix (projectRow ⟨⟨7, .str "CS", .str "1337", []⟩, none, none⟩) ∧
          c.course_number = (projectRow ⟨⟨7, .str "CS", .str "1337", []⟩, none, none⟩).course_number ∧
          a.academic_session =
            (projectRow ⟨⟨7, .str "CS", .str "1337", []⟩, none, none⟩).academic_session ∧
          a.academic_session.isPlaceholder = true ∧
          x.section_number =
            (projectRow ⟨⟨7, .str "CS", .str "1337", []⟩, none, none⟩).section_number ∧
          x.section_number.isPlaceholder = true ∧
          ∃ p ∈ x.professors,
            p = (projectRow ⟨⟨7, .str "CS", .str "1337", []⟩, none, none⟩).professor ∧
            p.first_name.isPlaceholder = true ∧ p.last_name.isPlaceholder = true) ∧
      ((leaves (groupingStages Store.lastEncounter
          [projectRow ⟨⟨7, .str "CS", .str "1337", []⟩, none, none⟩,
            ⟨.str "CS", .str "1337", .str "Fall24", .str "001", ⟨.str "Doe", .str "A"⟩⟩])).filter
        (fun l => decide (l.1 =
          sectionId (projectRow ⟨⟨7, .str "CS", .str "1337", []⟩, none, none⟩)))).length = 1 :=
  placeholder_row_keeps_its_chain Store.lastEncounter
    [projectRow ⟨⟨7, .str "CS", .str "1337", []⟩, none, none⟩,
      ⟨.str "CS", .str "1337", .str "Fall24", .str "001", ⟨.str "Doe", .str "A"⟩⟩]
    (projectRow ⟨⟨7, .str "CS", .str "1337", []⟩, none, none⟩)
    (List.mem_cons_self _ _) rfl rfl rfl rfl

/-- C5, as stated, fails: on a store that emits the groups of a `$group` stage in
reverse order, two rows of one subject with the courses 1337 and then 2336 give
a SubjectGroup whose CourseGroups are 2336 and then 1337, which is not the
order of the first rows carrying them. -/
theorem first_encounter_order_not_for_every_store :
    (groupingStages Store.lastEncounter twoCourseRows).map
        (fun s => s.course_numbers.map CourseGroup.course_number) =
        [[Value.str "2336", Value.str "1337"]] ∧
      ¬ (∀ s ∈ groupingStages Store.lastEncounter twoCourseRows,
          s.course_numbers.map CourseGroup.course_number =
            firstSeen ((twoCourseRows.filter
              (fun r => decide (r.subject_prefix = s.subject_prefix))).map
              JoinRow.course_number)) := by
  decide

/-- C5, amended: on a store that emits the groups of every `$group` stage in
first-encounter order, and for every sequence of join rows, SubjectGroups come
in the order of the first row carrying each subject_prefix, the CourseGroups of
a SubjectGroup in the order of the first row of that subject carrying each
course_number, the SessionGroups of a CourseGroup in the order of the first row
of that subject and course carrying each academic_session, and the
SectionGroups of a SessionGroup in the order of the first row of that subject,
course and session carrying each section_number. -/
theorem groups_in_first_encounter_order (rows : List JoinRow) :
    (groupingStages Store.firstEncounter rows).map SubjectGroup.subject_prefix =
        firstSeen (rows.map JoinRow.subject_prefix) ∧
      ∀ s ∈ groupingStages Store.firstEncounter rows,
        s.course_numbers.map CourseGroup.course_number =
          firstSeen ((rows.filter
            (fun r => decide (r.subject_prefix = s.subject_prefix))).map
            JoinRow.course_number) ∧
        ∀ c ∈ s.course_numbers,
          c.academic_sessions.map SessionGroup.academic_session =
            firstSeen ((rows.filter
              (fun r => decide (r.subject_prefix = s.subject_prefix ∧
                r.course_number = c.course_number))).map JoinRow.academic_session) ∧
          ∀ a ∈ c.academic_sessions,
            a.sections.map SectionGroup.section_number =
              firstSeen ((rows.filter
                (fun r => decide (r.subject_prefix = s.subject_prefix ∧
                  r.course_number = c.course_number ∧
                  r.academic_session = a.academic_session))).map JoinRow.section_number) := by
  refine ⟨?_, fun s hs => ?_⟩
  · have hmap : (groupingStages Store.firstEncounter rows).map SubjectGroup.subject_prefix =
        ((groupSubjects Store.firstEncounter (groupCourses Store.firstEncounter
          (groupSessions Store.firstEncounter (groupSections Store.firstEncounter rows)))).map
          Prod.fst).map SubjectId.subject_prefix := by
      simp [groupingStages, List.map_map, Function.comp_def, projectSubject]
    rw [hmap, groupSubjects_keys_firstEncounter, firstSeen_map_of_injOn, List.map_map]
    · rfl
    · rintro ⟨x⟩ - ⟨y⟩ - h
      simpa using h
  · obtain ⟨g, hg, rfl⟩ := subjectGroup_origin Store.firstEncounter rows s hs
    refine ⟨?_, fun c hc => ?_⟩
    · have h := courses_firstEncounter rows g hg
      have e : (fun r : JoinRow => decide (rowSubjectId r = g.1)) =
          (fun r => decide (r.subject_prefix = SubjectGroup.subject_prefix (projectSubject g))) := by
        funext r
        obtain ⟨⟨k⟩, v⟩ := g
        simp [rowSubjectId, projectSubject]
      rw [e] at h
      exact h
    · obtain ⟨d, hd, hdg, rfl⟩ := courseGroup_origin Store.firstEncounter rows g hg c hc
      refine ⟨?_, fun a ha => ?_⟩
      · have h := sessions_firstEncounter rows d hd
        have e : (fun r : JoinRow => decide (rowCourseId r = d.1)) =
            (fun r => decide (r.subject_prefix = SubjectGroup.subject_prefix (projectSubject g) ∧
              r.course_number = (courseGroup d).course_number)) := by
          funext r
          obtain ⟨⟨k⟩, v⟩ := g
          obtain ⟨⟨k1, k2⟩, w⟩ := d
          simp only [subjectId, SubjectId.mk.injEq] at hdg
          simp [rowCourseId, projectSubject, courseGroup, hdg]
        rw [e] at h
        exact h
      · obtain ⟨x, hx, hxd, rfl⟩ := sessionGroup_origin Store.firstEncounter rows d hd a ha
        have h := sections_firstEncounter rows x hx
        have e : (fun r : JoinRow => decide (rowSessionId r = x.1)) =
            (fun r => decide (r.subject_prefix = SubjectGroup.subject_prefix (projectSubject g) ∧
              r.course_number = (courseGroup d).course_number ∧
              r.academic_session = (sessionGroup x).academic_session)) := by
          funext r
          obtain ⟨⟨k⟩, v⟩ := g
          obtain ⟨⟨k1, k2⟩, w⟩ := d
          obtain ⟨⟨j1, j2, j3⟩, u⟩ := x
          simp only [subjectId, SubjectId.mk.injEq] at hdg
          simp only [courseId, CourseId.mk.injEq] at hxd
          simp [rowSessionId, projectSubject, courseGroup, sessionGroup, ← hdg, ← hxd.1, ← hxd.2]
        rw [e] at h
        exact h

/-- C6, as stated, fails: on a store that emits the groups of a `$group` stage
starting from the second one, the scenario rows give the SubjectGroup of MATH
before that of CS. -/
theorem scenario_order_not_for_every_store :
    (groupingStages Store.rotating scenarioRows).map SubjectGroup.subject_prefix =
        [Value.str "MATH", Value.str "CS"] ∧
      groupingStages Store.rotating scenarioRows ≠ scenarioTree := by
  decide

/-- C6, amended: on a store that emits groups in first-encounter order the
scenario rows give exactly the tree of the specification, CS then MATH, CS
with the course 1337 and the sessions Fall24 (section 001, professors Smith J
then Doe A) and Spring25 (section 002, one empty professor entry), MATH with
the course 2417, session Fall24, section 901 and professor Lee K.  On every
store the output has the leaf paths and professors lists of that tree and the
subjects CS and MATH, in some order. -/
theorem scenario_tree :
    groupingStages Store.firstEncounter scenarioRows = scenarioTree ∧
      ∀ st : Store,
        (leaves (groupingStages st scenarioRows)).Perm (leaves scenarioTree) ∧
        ((groupingStages st scenarioRows).map SubjectGroup.subject_prefix).Perm
          [Value.str "CS", Value.str "MATH"] := by
  refine ⟨by decide, fun st => ⟨?_, ?_⟩⟩
  · have h : groupPush sectionId JoinRow.professor scenarioRows = leaves scenarioTree := by
      decide
    rw [← h]
    exact leaves_groupingStages st scenarioRows
  · have hmap : (groupingStages st scenarioRows).map SubjectGroup.subject_prefix =
        ((groupSubjects st (groupCourses st (groupSessions st
          (groupSections st scenarioRows)))).map Prod.fst).map SubjectId.subject_prefix := by
      simp [groupingStages, List.map_map, Function.comp_def, projectSubject]
    have hk : ((groupSubjects st (groupCourses st (groupSessions st
        (groupSections st scenarioRows)))).map Prod.fst).Perm
        (firstSeen (scenarioRows.map rowSubjectId)) := by
      have hn : ((groupSubjects st (groupCourses st (groupSessions st
          (groupSections st scenarioRows)))).map Prod.fst).Nodup :=
        groupStage_keys_nodup st subjectId courseGroup _
      refine (List.perm_ext_iff_of_nodup hn (firstSeen_nodup _)).2 (fun k => ?_)
      rw [mem_groupSubjects_keys, mem_firstSeen, List.mem_map]
    have h2 : (firstSeen (scenarioRows.map rowSubjectId)).map SubjectId.subject_prefix =
        [Value.str "CS", Value.str "MATH"] := by
      decide
    rw [hmap, ← h2]
    exact hk.map _

/-- C10: with zero join rows the grouping stages give the empty sequence of
SubjectGroups, on every store; the stages are total functions of the row
sequence, and give an empty output only for the empty input. -/
theorem empty_input_gives_empty_output (st : Store) :
    groupingStages st [] = [] ∧
      ∀ rows : List JoinRow, ∃ out : List SubjectGroup,
        groupingStages st rows = out ∧ (out = [] ↔ rows = []) := by
  have h0 : groupingStages st [] = [] := by
    have e : ∀ {α : Type}, st.emit ([] : List α) = [] := fun {α} =>
      List.perm_nil.1 (st.emit_perm ([] : List α))
    simp [groupingStages, groupSubjects, groupCourses, groupSessions, groupSections, groupStage,
      groupPush, e]
  refine ⟨h0, fun rows => ⟨_, rfl, ?_⟩⟩
  constructor
  · intro h
    cases rows with
    | nil => rfl
    | cons r rs =>
      exfalso
      have hm : r.subject_prefix ∈
          (groupingStages st (r :: rs)).map SubjectGroup.subject_prefix := by
        have hmap : (groupingStages st (r :: rs)).map SubjectGroup.subject_prefix =
            ((groupSubjects st (groupCourses st (groupSessions st
              (groupSections st (r :: rs))))).map Prod.fst).map SubjectId.subject_prefix := by
          simp [groupingStages, List.map_map, Function.comp_def, projectSubject]
        rw [hmap]
        exact List.mem_map.2 ⟨rowSubjectId r,
          (mem_groupSubjects_keys st (r :: rs) _).2 ⟨r, List.mem_cons_self _ _, rfl⟩, rfl⟩
      rw [h] at hm
      simp at hm
  · intro h
    rw [h, h0]

/-! ## The join stages: claims -/

/-- C7: the join stages give, for every course in turn, one row without section
and professor when no section matches, and otherwise for every matching
section one row without professor when no professor matches and one row per
matching professor when some do; so every course has at least one row, and
the rows without section or professor project to join rows whose section and
professor fields are missing. -/
theorem join_rows_of_every_course (courses : List CourseDoc) (sections : List SectionDoc)
    (professors : List ProfessorDoc) :
    joinStages courses sections professors =
        courses.flatMap (fun c =>
          if sections.filter (fun s => decide (s._id ∈ c.sections)) = [] then
            [{ course := c, section_ := none, professor := none }]
          else
            (sections.filter (fun s => decide (s._id ∈ c.sections))).flatMap (fun s =>
              if professors.filter (fun p => decide (p._id ∈ s.professors)) = [] then
                [{ course := c, section_ := some s, professor := none }]
              else
                (professors.filter (fun p => decide (p._id ∈ s.professors))).map (fun p =>
                  { course := c, section_ := some s, professor := some p }))) ∧
      (∀ c ∈ courses, ∃ j ∈ joinStages courses sections professors, j.course = c) ∧
      (∀ c : CourseDoc, projectRow { course := c, section_ := none, professor := none } =
        { subject_prefix := c.subject_prefix, course_number := c.course_number,
          academic_session := Value.missing, section_number := Value.missing,
          professor := { first_name := Value.missing, last_name := Value.missing } }) ∧
      ∀ (c : CourseDoc) (s : SectionDoc),
        (projectRow { course := c, section_ := some s, professor := none }).professor =
          { first_name := Value.missing, last_name := Value.missing } := by
  have hsec : ∀ c : CourseDoc,
      (unwindSection (lookupSections sections c)).flatMap
          (fun d => unwindProfessor (lookupProfessors professors d)) =
        if sections.filter (fun s => decide (s._id ∈ c.sections)) = [] then
          [{ course := c, section_ := none, professor := none }]
        else
          (sections.filter (fun s => decide (s._id ∈ c.sections))).flatMap (fun s =>
            if professors.filter (fun p => decide (p._id ∈ s.professors)) = [] then
              [{ course := c, section_ := some s, professor := none }]
            else
              (professors.filter (fun p => decide (p._id ∈ s.professors))).map (fun p =>
                { course := c, section_ := some s, professor := some p })) := by
    intro c
    have hprof : ∀ s : SectionDoc,
        unwindProfessor (lookupProfessors professors { course := c, section_ := some s }) =
          if professors.filter (fun p => decide (p._id ∈ s.professors)) = [] then
            [{ course := c, section_ := some s, professor := none }]
          else
            (professors.filter (fun p => decide (p._id ∈ s.professors))).map (fun p =>
              { course := c, section_ := some s, professor := some p }) := by
      intro s
      simp only [unwindProfessor, lookupProfessors]
      cases h : professors.filter (fun p => decide (p._id ∈ s.professors)) with
      | nil => simp
      | cons p ps => simp
    simp only [unwindSection, lookupSections]
    cases h : sections.filter (fun s => decide (s._id ∈ c.sections)) with
    | nil => simp [unwindProfessor, lookupProfessors]
    | cons s ss =>
      simp only [List.flatMap_map, hprof]
      simp
  have hjoin : joinStages courses sections professors =
      courses.flatMap (fun c => (unwindSection (lookupSections sections c)).flatMap
        (fun d => unwindProfessor (lookupProfessors professors d))) := by
    simp only [joinStages, List.flatMap_map, List.flatMap_assoc, List.map_flatMap]
  refine ⟨?_, ?_, fun c => rfl, fun c s => rfl⟩
  · rw [hjoin]
    congr 1
    funext c
    exact hsec c
  · intro c hc
    have hrows : ∀ j, j ∈ (unwindSection (lookupSections sections c)).flatMap
        (fun d => unwindProfessor (lookupProfessors professors d)) →
        j ∈ joinStages courses sections professors := by
      intro j hj
      rw [hjoin]
      exact List.mem_flatMap.2 ⟨c, hc, hj⟩
    by_cases h : sections.filter (fun s => decide (s._id ∈ c.sections)) = []
    · refine ⟨{ course := c, section_ := none, professor := none }, hrows _ ?_, rfl⟩
      rw [hsec c, if_pos h]
      exact List.mem_singleton_self _
    · obtain ⟨s, hs⟩ := List.exists_mem_of_ne_nil _ h
      by_cases hp : professors.filter (fun p => decide (p._id ∈ s.professors)) = []
      · refine ⟨{ course := c, section_ := some s, professor := none }, hrows _ ?_, rfl⟩
        rw [hsec c, if_neg h]
        refine List.mem_flatMap.2 ⟨s, hs, ?_⟩
        rw [if_pos hp]
        exact List.mem_singleton_self _
      · obtain ⟨p, hpm⟩ := List.exists_mem_of_ne_nil _ hp
        refine ⟨{ course := c, section_ := some s, professor := some p }, hrows _ ?_, rfl⟩
        rw [hsec c, if_neg h]
        refine List.mem_flatMap.2 ⟨s, hs, ?_⟩
        rw [if_neg hp]
        exact List.mem_map.2 ⟨p, hpm, rfl⟩

/-! ## The handler: claims -/

/-- C8: every response `AutocompleteDAG` writes carries its HTTP status code in
the `Status` field.  When `Aggregate` fails the handler writes status 500 with
message "error" and the text of the error as data, and `cursor.All` is not
called; when `Aggregate` and the decoding succeed it writes status 200 with
message "success" and the decoded documents as data. -/
theorem envelope_status_is_http_status {δ : Type} (reply : StoreReply δ) :
    (∀ code body, Event.json code body ∈ AutocompleteDAG reply → body.Status = code) ∧
      (∀ err, reply.aggregateErr = some err →
        AutocompleteDAG reply =
            [Event.aggregateCalled,
              Event.json 500 { Status := 500, Message := "error", Data := Payload.errorText err }] ∧
          Event.cursorAllCalled ∉ AutocompleteDAG reply) ∧
      ∀ docs, reply.aggregateErr = none → reply.allResult = Except.ok docs →
        AutocompleteDAG reply =
          [Event.aggregateCalled, Event.cursorAllCalled,
            Event.json 200
              { Status := 200, Message := "success", Data := Payload.documents docs }] := by
  obtain ⟨agg, all⟩ := reply
  refine ⟨?_, ?_, ?_⟩
  · intro code body h
    cases agg with
    | some err =>
      simp only [AutocompleteDAG, List.mem_cons, List.mem_singleton, Event.json.injEq,
        List.not_mem_nil, or_false, false_or, reduceCtorEq] at h
      obtain ⟨rfl, rfl⟩ := h
      rfl
    | none =>
      cases all with
      | error err =>
        simp [AutocompleteDAG] at h
      | ok docs =>
        simp only [AutocompleteDAG, List.mem_cons, List.mem_singleton, Event.json.injEq,
          List.not_mem_nil, or_false, false_or, reduceCtorEq] at h
        obtain ⟨rfl, rfl⟩ := h
        rfl
  · intro err h
    simp only at h
    subst h
    exact ⟨rfl, by simp [AutocompleteDAG]⟩
  · intro docs h1 h2
    simp only at h1 h2
    subst h1 h2
    rfl

/-- C9, as stated, fails: when `Aggregate` succeeds and the decoding fails, the
handler panics with the decoding error and writes no envelope at all. -/
theorem decoding_failure_writes_no_envelope :
    AutocompleteDAG
        ({ aggregateErr := none, allResult := Except.error "cannot decode" } :
          StoreReply SubjectGroup) =
        [Event.aggregateCalled, Event.cursorAllCalled, Event.panicked "cannot decode"] ∧
      (AutocompleteDAG
        ({ aggregateErr := none, allResult := Except.error "cannot decode" } :
          StoreReply SubjectGroup)).countP Event.isResponse = 0 := by
  decide

/-- C9, amended: for every outcome of `Aggregate` and of the decoding the handler
writes at most one response and never a partial tree: a failure of `Aggregate`
gives exactly one response, the error envelope, and no panic; success of both
gives exactly one response, the envelope with all decoded documents, and no
panic; a failure of the decoding gives a panic with the decoding error and no
response. -/
theorem one_envelope_or_panic {δ : Type} (reply : StoreReply δ) :
    (AutocompleteDAG reply).countP Event.isResponse ≤ 1 ∧
      (∀ code body ds, Event.json code body ∈ AutocompleteDAG reply →
        body.Data = Payload.documents ds → reply.allResult = Except.ok ds) ∧
      (∀ err, reply.aggregateErr = some err →
        (AutocompleteDAG reply).countP Event.isResponse = 1 ∧
          (AutocompleteDAG reply).countP Event.isPanic = 0 ∧
          Event.json 500 { Status := 500, Message := "error", Data := Payload.errorText err } ∈
            AutocompleteDAG reply) ∧
      (∀ docs, reply.aggregateErr = none → reply.allResult = Except.ok docs →
        (AutocompleteDAG reply).countP Event.isResponse = 1 ∧
          (AutocompleteDAG reply).countP Event.isPanic = 0 ∧
          Event.json 200 { Status := 200, Message := "success", Data := Payload.documents docs } ∈
            AutocompleteDAG reply) ∧
      ∀ err, reply.aggregateErr = none → reply.allResult = Except.error err →
        (AutocompleteDAG reply).countP Event.isResponse = 0 ∧
          AutocompleteDAG reply =
            [Event.aggregateCalled, Event.cursorAllCalled, Event.panicked err] := by
  obtain ⟨agg, all⟩ := reply
  cases agg with
  | some e =>
    refine ⟨by simp [AutocompleteDAG, Event.isResponse, List.countP_cons], ?_, ?_, ?_, ?_⟩
    · intro code body ds h hd
      simp only [AutocompleteDAG, List.mem_cons, List.mem_singleton, Event.json.injEq,
        List.not_mem_nil, or_false, false_or, reduceCtorEq] at h
      obtain ⟨-, rfl⟩ := h
      simp at hd
    · intro err h
      simp only [Option.some.injEq] at h
      subst h
      simp [AutocompleteDAG, Event.isResponse, Event.isPanic, List.countP_cons,
        StatusInternalServerError]
    · intro docs h
      simp at h
    · intro err h
      simp at h
  | none =>
    cases all with
    | error e =>
      refine ⟨by simp [AutocompleteDAG, Event.isResponse, List.countP_cons], ?_, ?_, ?_, ?_⟩
      · intro code body ds h
        simp [AutocompleteDAG] at h
      · intro err h
        simp at h
      · intro docs _ h
        simp at h
      · intro err _ h
        simp only [Except.error.injEq] at h
        subst h
        simp [AutocompleteDAG, Event.isResponse, List.countP_cons]
    | ok d =>
      refine ⟨by simp [AutocompleteDAG, Event.isResponse, List.countP_cons], ?_, ?_, ?_, ?_⟩
      · intro code body ds h hd
        simp only [AutocompleteDAG, List.mem_cons, List.mem_singleton, Event.json.injEq,
          List.not_mem_nil, or_false, false_or, reduceCtorEq] at h
        obtain ⟨-, rfl⟩ := h
        simp only [Payload.documents.injEq] at hd
        rw [hd]
      · intro err h
        simp at h
      · intro docs _ h
        simp only [Except.ok.injEq] at h
        subst h
        simp [AutocompleteDAG, Event.isResponse, Event.isPanic, List.countP_cons, StatusOK]
      · intro err _ h
        simp at h

/-! ## Configuration and request options: claims -/

/-- C11: for every request, `GetOptionLimit` returns options with skip 0, limit
`GetEnvLimit()` and a nil error when the `offset` query parameter is absent or
the empty string; options with skip n, the same limit and a nil error when
`offset` is a base-10 signed 64-bit integer n; and otherwise a non-nil error
together with non-nil options with skip 0 and the same limit. -/
theorem GetOptionLimit_skip_and_limit {V : Type} (env : Environ) (query : BsonM V)
    (c : Context) :
    (c.queryValue "offset" = none ∨ c.queryValue "offset" = some "" →
        (GetOptionLimit env query c).findOptions =
            some { Skip := some 0, Limit := some (GetEnvLimit env) } ∧
          (GetOptionLimit env query c).err = none) ∧
      (∀ (s : String) (n : Int), c.queryValue "offset" = some s → decimalInt64 s = some n →
        (GetOptionLimit env query c).findOptions =
            some { Skip := some n, Limit := some (GetEnvLimit env) } ∧
          (GetOptionLimit env query c).err = none) ∧
      ∀ s : String, c.queryValue "offset" = some s → s ≠ "" → decimalInt64 s = none →
        (∃ e, (GetOptionLimit env query c).err = some e) ∧
          (GetOptionLimit env query c).findOptions =
            some { Skip := some 0, Limit := some (GetEnvLimit env) } := by
  refine ⟨?_, ?_, ?_⟩
  · intro h
    have hq : c.Query "offset" = "" := by
      rcases h with h | h <;> simp [Context.Query, h]
    simp [GetOptionLimit, hq, FindOptions.Find, FindOptions.SetSkip, FindOptions.SetLimit]
  · intro s n hs hn
    have hq : c.Query "offset" = s := by simp [Context.Query, hs]
    have hne : s ≠ "" := by
      intro e
      rw [e] at hn
      have h0 : decimalInt64 "" = none := by decide
      rw [h0] at hn
      exact Option.noConfusion hn
    have hp := ParseInt_spec s
    rw [hn] at hp
    simp only at hp
    simp [GetOptionLimit, hq, hne, hp, FindOptions.Find, FindOptions.SetSkip,
      FindOptions.SetLimit]
  · intro s hs hne hn
    have hq : c.Query "offset" = s := by simp [Context.Query, hs]
    have hp := ParseInt_spec s
    rw [hn] at hp
    simp only at hp
    obtain ⟨e, he⟩ := hp
    cases hpi : ParseInt s with
    | mk v oe =>
      rw [hpi] at he
      simp only at he
      subst he
      simp [GetOptionLimit, hq, hne, hpi, FindOptions.Find, FindOptions.SetSkip,
        FindOptions.SetLimit]

/-- C12: after `GetOptionLimit` returns, with or without an error, the query
map has no `offset` key and every other key has the value it had before the
call (and is absent if it was absent). -/
theorem GetOptionLimit_removes_only_offset {V : Type} (env : Environ) (query : BsonM V)
    (c : Context) :
    (GetOptionLimit env query c).query "offset" = none ∧
      ∀ k : String, k ≠ "offset" → (GetOptionLimit env query c).query k = query k := by
  have hq : (GetOptionLimit env query c).query = query.delete "offset" := by
    unfold GetOptionLimit
    simp only []
    split
    · rfl
    · split <;> rfl
  rw [hq]
  refine ⟨by simp [BsonM.delete], fun k hk => by simp [BsonM.delete, hk]⟩

/-- C13: `GetEnvLimit` returns 20 when `LIMIT` is not set and when its value is
no base-10 signed 64-bit integer, the empty string included, and otherwise
exactly the integer the value denotes. -/
theorem GetEnvLimit_default_or_parsed (env : Environ) :
    (env "LIMIT" = none → GetEnvLimit env = 20) ∧
      (∀ s : String, env "LIMIT" = some s → decimalInt64 s = none → GetEnvLimit env = 20) ∧
      (env "LIMIT" = some "" → GetEnvLimit env = 20) ∧
      ∀ (s : String) (n : Int), env "LIMIT" = some s → decimalInt64 s = some n →
        GetEnvLimit env = n := by
  have hbad : ∀ s : String, env "LIMIT" = some s → decimalInt64 s = none →
      GetEnvLimit env = 20 := by
    intro s hs hn
    have hp := ParseInt_spec s
    rw [hn] at hp
    simp only at hp
    obtain ⟨e, he⟩ := hp
    cases hpi : ParseInt s with
    | mk v oe =>
      rw [hpi] at he
      simp only at he
      subst he
      simp [GetEnvLimit, hs, hpi]
  refine ⟨fun h => by simp [GetEnvLimit, h], hbad, fun h => hbad "" h (by decide), ?_⟩
  intro s n hs hn
  have hp := ParseInt_spec s
  rw [hn] at hp
  simp only at hp
  simp [GetEnvLimit, hs, hp]

/-- C14: `GetPortString` returns the colon followed by the value of `Port` when
the variable is set and `:8080` when it is not; in every case the result
starts with the colon. -/
theorem GetPortString_colon_port (env : Environ) :
    (∀ v : String, env "Port" = some v → GetPortString env = ":" ++ v) ∧
      (env "Port" = none → GetPortString env = ":8080") ∧
      (∃ rest : String, GetPortString env = ":" ++ rest) ∧
      (GetPortString env).data.head? = some ':' := by
  refine ⟨fun v h => by simp [GetPortString, h], fun h => by simp [GetPortString, h], ?_, ?_⟩
  · cases h : env "Port" with
    | none => exact ⟨"8080", by simp [GetPortString, h]⟩
    | some v => exact ⟨v, by simp [GetPortString, h]⟩
  · simp [GetPortString, String.data_append]

/-! ## The CORS middleware: claims -/

/-- C15: for every request the middleware sets the four CORS response headers
to the values `*`, `true`, `Accept, x-api-key` and `OPTIONS, GET`; for the
method OPTIONS it writes status 204 and returns without calling the next
handler; for every other method it calls the next handler once and writes no
status itself. -/
theorem CORS_headers_and_preflight (method : String) (h : Header) :
    headerAfter h (CORS method) "Access-Control-Allow-Origin" = some ["*"] ∧
      headerAfter h (CORS method) "Access-Control-Allow-Credentials" = some ["true"] ∧
      headerAfter h (CORS method) "Access-Control-Allow-Headers" =
        some ["Accept, x-api-key"] ∧
      headerAfter h (CORS method) "Access-Control-Allow-Methods" = some ["OPTIONS, GET"] ∧
      (method = "OPTIONS" →
        statusWritten (CORS method) = [204] ∧ nextCalls (CORS method) = 0 ∧
          (CORS method).getLast? = some (CorsStep.indentedJSON 204 "")) ∧
      (method ≠ "OPTIONS" →
        statusWritten (CORS method) = [] ∧ nextCalls (CORS method) = 1) := by
  by_cases hm : method = "OPTIONS"
  · simp [CORS, hm, headerAfter, Header.Set, statusWritten, nextCalls]
  · simp [CORS, hm, headerAfter, Header.Set, statusWritten, nextCalls]

/-! ## The grouping stages: determinism and shape -/

/-- C16, as stated, fails: the same two rows grouped by a store that emits
groups in first-encounter order and by a store that emits them in reverse
order give different outputs; the pipeline does not fix the emission order. -/
theorem output_depends_on_emission_order :
    groupingStages Store.firstEncounter twoCourseRows ≠
      groupingStages Store.lastEncounter twoCourseRows := by
  decide

/-- C16, amended: the output of the grouping stages is a function of the input
row sequence and of the order in which the store emits the groups of a
`$group` stage.  Two runs on the same rows with the same emission order give
identical outputs; two runs with any two emission orders give the same
SectionGroup leaves, each with its full path and its professors list in the
same order, and the same subjects, up to the order of the groups. -/
theorem same_rows_same_groups (st₁ st₂ : Store) (rows : List JoinRow) :
    ((∀ (α : Type) (l : List α), st₁.emit l = st₂.emit l) →
        groupingStages st₁ rows = groupingStages st₂ rows) ∧
      (leaves (groupingStages st₁ rows)).Perm (leaves (groupingStages st₂ rows)) ∧
      ((groupingStages st₁ rows).map SubjectGroup.subject_prefix).Perm
        ((groupingStages st₂ rows).map SubjectGroup.subject_prefix) := by
  refine ⟨fun h => by rw [Store.eq_of_emit st₁ st₂ h],
    (leaves_groupingStages st₁ rows).trans (leaves_groupingStages st₂ rows).symm, ?_⟩
  have hmap : ∀ st : Store, (groupingStages st rows).map SubjectGroup.subject_prefix =
      ((groupSubjects st (groupCourses st (groupSessions st (groupSections st rows)))).map
        Prod.fst).map SubjectId.subject_prefix := by
    intro st
    simp [groupingStages, List.map_map, Function.comp_def, projectSubject]
  have hk : ∀ st : Store,
      ((groupSubjects st (groupCourses st (groupSessions st (groupSections st rows)))).map
        Prod.fst).Perm (firstSeen (rows.map rowSubjectId)) := by
    intro st
    have hn : ((groupSubjects st (groupCourses st (groupSessions st
        (groupSections st rows)))).map Prod.fst).Nodup :=
      groupStage_keys_nodup st subjectId courseGroup _
    refine (List.perm_ext_iff_of_nodup hn (firstSeen_nodup _)).2 (fun k => ?_)
    rw [mem_groupSubjects_keys, mem_firstSeen, List.mem_map]
  rw [hmap st₁, hmap st₂]
  exact ((hk st₁).trans (hk st₂).symm).map _

/-- C17: the output is the final projection of four `$group` stages applied in
sequence.  The first groups the rows by (subject_prefix, course_number,
academic_session, section_number) and pushes the professor; each later stage
groups by the key of the stage before it without its last component and
pushes that component together with the list the stage before accumulated;
the final projection keeps subject_prefix and course_numbers.  Every document
a stage emits is pushed, in this form, into the group of its shortened key in
the next stage, and nothing else is pushed. -/
theorem four_group_stages (st : Store) (rows : List JoinRow) :
    groupingStages st rows =
        (groupStage st subjectId courseGroup
          (groupStage st courseId sessionGroup
            (groupStage st sessionId sectionGroup
              (groupStage st sectionId JoinRow.professor rows)))).map projectSubject ∧
      (∀ r : JoinRow, sectionId r =
        { subject_prefix := r.subject_prefix, course_number := r.course_number,
          academic_session := r.academic_session, section_number := r.section_number }) ∧
      (∀ d : SectionId × List ProfessorRef,
        sessionId d =
            { subject_prefix := d.fst.subject_prefix, course_number := d.fst.course_number,
              academic_session := d.fst.academic_session } ∧
          sectionGroup d = { section_number := d.fst.section_number, professors := d.snd }) ∧
      (∀ d : SessionId × List SectionGroup,
        courseId d =
            { subject_prefix := d.fst.subject_prefix, course_number := d.fst.course_number } ∧
          sessionGroup d = { academic_session := d.fst.academic_session, sections := d.snd }) ∧
      (∀ d : CourseId × List SessionGroup,
        subjectId d = { subject_prefix := d.fst.subject_prefix } ∧
          courseGroup d = { course_number := d.fst.course_number, academic_sessions := d.snd }) ∧
      (∀ d : SubjectId × List CourseGroup,
        projectSubject d = { subject_prefix := d.fst.subject_prefix, course_numbers := d.snd }) ∧
      (∀ d ∈ groupSections st rows,
        ∃ g ∈ groupSessions st (groupSections st rows),
          g.1 = sessionId d ∧ sectionGroup d ∈ g.2) ∧
      (∀ g ∈ groupSessions st (groupSections st rows), ∀ x ∈ g.2,
        ∃ d ∈ groupSections st rows, sessionId d = g.1 ∧ sectionGroup d = x) ∧
      (∀ d ∈ groupSessions st (groupSections st rows),
        ∃ g ∈ groupCourses st (groupSessions st (groupSections st rows)),
          g.1 = courseId d ∧ sessionGroup d ∈ g.2) ∧
      (∀ g ∈ groupCourses st (groupSessions st (groupSections st rows)), ∀ x ∈ g.2,
        ∃ d ∈ groupSessions st (groupSections st rows), courseId d = g.1 ∧ sessionGroup d = x) ∧
      (∀ d ∈ groupCourses st (groupSessions st (groupSections st rows)),
        ∃ g ∈ groupSubjects st (groupCourses st (groupSessions st (groupSections st rows))),
          g.1 = subjectId d ∧ courseGroup d ∈ g.2) ∧
      ∀ g ∈ groupSubjects st (groupCourses st (groupSessions st (groupSections st rows))),
        ∀ x ∈ g.2,
          ∃ d ∈ groupCourses st (groupSessions st (groupSections st rows)),
            subjectId d = g.1 ∧ courseGroup d = x := by
  refine ⟨rfl, fun _ => rfl, fun _ => ⟨rfl, rfl⟩, fun _ => ⟨rfl, rfl⟩, fun _ => ⟨rfl, rfl⟩,
    fun _ => rfl, ?_, ?_, ?_, ?_, ?_, ?_⟩
  · exact fun d hd => pushed_of_mem st sessionId sectionGroup _ d hd
  · exact fun g hg x hx => mem_group_values st sessionId sectionGroup _ g hg x hx
  · exact fun d hd => pushed_of_mem st courseId sessionGroup _ d hd
  · exact fun g hg x hx => mem_group_values st courseId sessionGroup _ g hg x hx
  · exact fun d hd => pushed_of_mem st subjectId courseGroup _ d hd
  · exact fun g hg x hx => mem_group_values st subjectId courseGroup _ g hg x hx

end Autocomplete
